import Mathlib

/-!
# Verification of the systemd-rhel7 job engine (`src/core/job.c`)

A shallow embedding of the job engine of the service manager: the job-type
algebra (merge / collapse), the per-unit job slots, installation, the run
queue, runnability, dispatch, finish-and-propagate, timers and
serialization, together with theorems about the engine's documented
behaviour.

Pure C functions become Lean functions; the manager's mutable state becomes
an explicit `Manager` value threaded through the operations.  Machine
integers are modelled as `Nat`/`Int` (job ids are `uint32_t`, so
serialization theorems carry explicit `< 2^32` bounds).  External
collaborators (the unit vtable's start/stop/reload primitives, the event
loop, D-Bus) appear as environment data on the modelled unit
(`start_r`, `stop_r`, `reload_r` are the return codes of the unit
primitives) or are omitted when they have no bearing on engine state
(status printing, D-Bus signal queueing).

A ghost field `Manager.finished` records, newest first, every
`(job id, job type, job result)` triple passed to
`job_finish_and_invalidate`; it corresponds to the observable
"job finished with result r" events (`j->result = result` plus the
status/log emission in the C code) and lets theorems speak about which jobs
finished with which results.
-/

set_option maxHeartbeats 1000000

/-- Job types, `JobType` in `job.h`.  The numbering (`toNat` below) follows
the C enum: the five merging types come first (`_JOB_TYPE_MAX_MERGING = 5`),
then `nop` (`_JOB_TYPE_MAX_IN_TRANSACTION = 6`), then the compound types
that only exist before collapsing.  `invalid` stands for
`_JOB_TYPE_INVALID = -1`, the type of a freshly `job_new_raw`-allocated job
before deserialization fills it in. -/
inductive JobType where
  | start
  | verify_active
  | stop
  | reload
  | restart
  | nop
  | reload_or_start
  | try_restart
  | invalid
deriving DecidableEq, Repr, Fintype

/-- The C enum value of a job type (`invalid` is `-1` in C; we give it a
value outside every meaningful range, which preserves all the range checks
`t < _JOB_TYPE_MAX_MERGING` and `0 <= t < _JOB_TYPE_MAX_IN_TRANSACTION`). -/
def JobType.toNat : JobType → Nat
  | .start => 0
  | .verify_active => 1
  | .stop => 2
  | .reload => 3
  | .restart => 4
  | .nop => 5
  | .reload_or_start => 6
  | .try_restart => 7
  | .invalid => 8

/-- `t < _JOB_TYPE_MAX_MERGING`: the five types in the merge matrix. -/
def JobType.isMerging (t : JobType) : Bool := t.toNat < 5

/-- `0 <= t < _JOB_TYPE_MAX_IN_TRANSACTION`: the six types a transaction
(and hence an installed job) may carry. -/
def JobType.inTransaction (t : JobType) : Bool := t.toNat < 6

/-- Job states, `JobState` in `job.h`. -/
inductive JobState where
  | waiting
  | running
deriving DecidableEq, Repr, Fintype

/-- Job results, `JobResult` in `job.h`. -/
inductive JobResult where
  | done
  | canceled
  | timeout
  | failed
  | dependency
  | skipped
  | invalid
  | assert
  | unsupported
deriving DecidableEq, Repr, Fintype

/-- Unit activation states, `UnitActiveState` in `unit.h`. -/
inductive UnitActiveState where
  | active
  | reloading
  | inactive
  | failed
  | activating
  | deactivating
deriving DecidableEq, Repr, Fintype

/-- Modelled from the spec: the `UNIT_IS_INACTIVE_OR_DEACTIVATING` macro of
`unit.h` (not under `src/`): the states in which the unit is inactive, has
failed, or is on its way down. -/
def UNIT_IS_INACTIVE_OR_DEACTIVATING (s : UnitActiveState) : Bool :=
  s = .inactive || s = .failed || s = .deactivating

/-- Modelled from the spec: the `UNIT_IS_ACTIVE_OR_RELOADING` macro of
`unit.h` (not under `src/`): active or reloading. -/
def UNIT_IS_ACTIVE_OR_RELOADING (s : UnitActiveState) : Bool :=
  s = .active || s = .reloading

/-!
## The job-type algebra (`job.c` lines 334–446)
-/

/-- The lower triangle of the symmetric merge matrix, `job_merging_table`:
rows `verify-active`, `stop`, `reload`, `restart`, columns strictly below
the diagonal; `none` is the C table's `-1` ("incompatible"). -/
def job_merging_table : List (Option JobType) :=
  [some .start,
   none, none,
   some .reload_or_start, some .reload, none,
   some .restart, some .restart, none, some .restart]

/-- `job_type_lookup_merge`: equal types merge to themselves; otherwise the
arguments are swapped so the first is the larger and the triangle is
indexed by `(a-1)*a/2 + b`.  Only defined (in C: asserted) for the five
merging types; out-of-range lookups land outside the table and give
`none`. -/
def job_type_lookup_merge (a b : JobType) : Option JobType :=
  if a = b then some a
  else
    let p := if a.toNat < b.toNat then (b, a) else (a, b)
    (job_merging_table.get? ((p.1.toNat - 1) * p.1.toNat / 2 + p.2.toNat)).join

/-- Modelled from the spec: `job_type_is_mergeable` of `job.h` (not under
`src/`); two types are mergeable when the merge matrix has an entry for
them. -/
def job_type_is_mergeable (a b : JobType) : Bool :=
  (job_type_lookup_merge a b).isSome

/-- Modelled from the spec: `job_type_is_conflicting` of `job.h` (not under
`src/`); "Two types conflict iff their merge result is incompatible
(`-1`)." -/
def job_type_is_conflicting (a b : JobType) : Bool :=
  !(job_type_is_mergeable a b)

/-- Modelled from the spec: `job_type_is_superset` of `job.h` (not under
`src/`); whether operation `a` entails everything `b` would do: a type is a
superset of itself, `start` and `reload` are supersets of `verify-active`,
and `restart` is a superset of `start`, `verify-active` and `reload`. -/
def job_type_is_superset (a b : JobType) : Bool :=
  a = b ||
  (a = .start && b = .verify_active) ||
  (a = .reload && b = .verify_active) ||
  (a = .restart && (b = .start || b = .verify_active || b = .reload))

/-- `job_type_allows_late_merge` (`job.c` line 166): merging into an
already-running job is allowed for every type but `reload`. -/
def job_type_allows_late_merge (t : JobType) : Bool :=
  t ≠ .reload

/-- `job_type_collapse` (`job.c` line 413): resolve the compound types
using the unit's current activation state `s`. -/
def job_type_collapse (t : JobType) (s : UnitActiveState) : JobType :=
  match t with
  | .try_restart => if UNIT_IS_INACTIVE_OR_DEACTIVATING s then .nop else .restart
  | .reload_or_start => if UNIT_IS_INACTIVE_OR_DEACTIVATING s then .start else .reload
  | _ => t

/-- `job_type_merge_and_collapse` (`job.c` line 437): merge, and on success
collapse the result with the unit's activation state; `none` is the C
`-EEXIST` (in which case `*a` is left unchanged). -/
def job_type_merge_and_collapse (a b : JobType) (s : UnitActiveState) : Option JobType :=
  (job_type_lookup_merge a b).map (fun t => job_type_collapse t s)

/-- `job_type_is_redundant` (`job.c` line 379): whether a job's desired
effect already holds in activation state `b`. -/
def job_type_is_redundant (a : JobType) (b : UnitActiveState) : Bool :=
  match a with
  | .start => b = .active || b = .reloading
  | .stop => b = .inactive || b = .failed
  | .verify_active => b = .active || b = .reloading
  | .reload => b = .reloading
  | .restart => b = .activating
  | .nop => true
  | _ => false

/-!
## String tables (`job.c` lines 1238–1282) and serialization value formats
-/

/-- `job_type_table` / `job_type_to_string`.  The C lookup returns `NULL`
for `_JOB_TYPE_INVALID`; we return `""`, which no valid table entry equals,
so `job_type_from_string` still never produces `invalid`. -/
def job_type_to_string : JobType → String
  | .start => "start"
  | .verify_active => "verify-active"
  | .stop => "stop"
  | .reload => "reload"
  | .reload_or_start => "reload-or-start"
  | .restart => "restart"
  | .try_restart => "try-restart"
  | .nop => "nop"
  | .invalid => ""

/-- `job_type_from_string`: scan of `job_type_table` generated by
`DEFINE_STRING_TABLE_LOOKUP`. -/
def job_type_from_string (s : String) : Option JobType :=
  if s = "start" then some .start
  else if s = "verify-active" then some .verify_active
  else if s = "stop" then some .stop
  else if s = "reload" then some .reload
  else if s = "reload-or-start" then some .reload_or_start
  else if s = "restart" then some .restart
  else if s = "try-restart" then some .try_restart
  else if s = "nop" then some .nop
  else none

/-- `job_state_table` / `job_state_to_string`. -/
def job_state_to_string : JobState → String
  | .waiting => "waiting"
  | .running => "running"

/-- `job_state_from_string`. -/
def job_state_from_string (s : String) : Option JobState :=
  if s = "waiting" then some .waiting
  else if s = "running" then some .running
  else none

/-- `yes_no` of `util.h`: boolean rendering used by `job_serialize`. -/
def yes_no (b : Bool) : String := if b then "yes" else "no"

/-- Modelled from the spec: `parse_boolean` of `util.c` (not under `src/`);
the serialization format documents the values as `<yes|no>`, and those are
the two spellings the serializer emits, so the model accepts exactly them
(`none` is the C parse error, on which the deserializer keeps the old
value). -/
def parse_boolean (s : String) : Option Bool :=
  if s = "yes" then some true
  else if s = "no" then some false
  else none

/-- Decimal digits of `n`, least significant first (`[]` for 0). -/
def natDigitsRev : Nat → List Nat
  | 0 => []
  | n + 1 => ((n + 1) % 10) :: natDigitsRev ((n + 1) / 10)
decreasing_by exact Nat.div_lt_self (Nat.succ_pos n) (by norm_num)

/-- Decimal rendering of a natural number, as the `printf %u`/`%llu` in
`job_serialize` produces it. -/
def renderNat (n : Nat) : String :=
  if n = 0 then "0"
  else String.mk ((natDigitsRev n).reverse.map fun d => Char.ofNat (48 + d))

/-- One decimal digit of a character, `none` for non-digits. -/
def parseDigit (c : Char) : Option Nat :=
  if 48 ≤ c.toNat ∧ c.toNat ≤ 57 then some (c.toNat - 48) else none

/-- Accumulating decimal parse. -/
def parseNatAux : List Char → Nat → Option Nat
  | [], acc => some acc
  | c :: cs, acc =>
    match parseDigit c with
    | some d => parseNatAux cs (acc * 10 + d)
    | none => none

/-- Decimal parse of a non-empty all-digit string, the common core of
`safe_atou32` and the `sscanf("%llu")` used by `job_deserialize`. -/
def parseNat (s : String) : Option Nat :=
  match s.data with
  | [] => none
  | cs => parseNatAux cs 0

/-- Modelled from the spec: `safe_atou32` of `util.c` (not under `src/`);
parses a decimal `uint32_t`, rejecting values that do not fit in 32 bits
(the C code range-checks the `strtoull` result). -/
def safe_atou32 (s : String) : Option Nat :=
  (parseNat s).bind fun n => if n < 2 ^ 32 then some n else none

/-- Parse of `job-begin` via `sscanf("%llu")` into a `usec_t` (`uint64_t`);
values the serializer can produce always fit. -/
def parse_usec (s : String) : Option Nat :=
  (parseNat s).bind fun n => if n < 2 ^ 64 then some n else none

/-!
## Data model: jobs, units, the manager

Jobs live in the per-unit slots (`Unit.job` for regular jobs,
`Unit.nop_job` for `nop` jobs), exactly as in C, where the slot pointer is
the owning reference.  A C `Job *` is modelled as a `JobRef`: the owning
unit's id together with which of the two slots the job occupies.  The
manager's `jobs` hashmap (id → job) is modelled by searching the slots
(`manager_get_job`); uninstalling removes the job from its slot and hence
from the lookup, as `hashmap_remove` does in `job_uninstall`.
-/

abbrev UnitId := Nat

/-- A C `Job *`: the owning unit and whether the job sits in the `nop_job`
slot (`true`) or the regular `job` slot (`false`). -/
abbrev JobRef := UnitId × Bool

/-- The `Job` record of `job.h` (the fields the engine reads and writes;
list-membership links such as `transaction_next` belong to the external
transaction builder and are omitted).  `clients` is the live subscriber
set (`j->clients`, a `sd_bus_track` of client names);
`deserialized_clients` is the string list rebuilt by deserialization. -/
structure Job where
  id : Nat
  unit : UnitId
  type : JobType
  state : JobState
  override : Bool
  irreversible : Bool
  ignore_order : Bool
  installed : Bool
  in_run_queue : Bool
  reloaded : Bool
  sent_dbus_new_signal : Bool
  begin_usec : Nat
  clients : List String
  deserialized_clients : List String
  result : JobResult
deriving DecidableEq, Repr

/-- The slice of the C `Unit` the job engine sees (`unit.h`): identity, the
two job slots, the dependency edge sets (as unit ids), the activation
state, the per-unit job timeout, and — standing for the unit vtable — the
return codes `unit_start` / `unit_stop` / `unit_reload` would produce for
this unit. -/
structure SdUnit where
  id : UnitId
  active_state : UnitActiveState
  job : Option Job
  nop_job : Option Job
  after : List UnitId
  before : List UnitId
  required_by : List UnitId
  required_by_overridable : List UnitId
  bound_by : List UnitId
  conflicted_by : List UnitId
  job_timeout : Nat
  start_r : Int
  stop_r : Int
  reload_r : Int
deriving DecidableEq, Repr

/-- The slice of the C `Manager` the job engine reads and writes.
`run_queue` is the dispatch list (`LIST_PREPEND` order: head = most
recently added); `finished` is the ghost log of finish events described in
the file header. -/
structure Manager where
  units : List SdUnit
  run_queue : List JobRef
  n_installed_jobs : Nat
  n_running_jobs : Nat
  n_failed_jobs : Nat
  n_reloading : Nat
  current_job_id : Nat
  finished : List (Nat × JobType × JobResult)
deriving DecidableEq, Repr

/-- Follow a unit id to the unit (a C `Unit *` dereference). -/
def Manager.getUnit (m : Manager) (uid : UnitId) : Option SdUnit :=
  m.units.find? (fun u => u.id = uid)

/-- Rewrite the unit with id `uid` in place. -/
def Manager.updateUnit (m : Manager) (uid : UnitId) (f : SdUnit → SdUnit) : Manager :=
  { m with units := m.units.map fun u => if u.id = uid then f u else u }

/-- Read the slot a `JobRef` points at. -/
def Manager.slotGet (m : Manager) (ref : JobRef) : Option Job :=
  (m.getUnit ref.1).bind fun u => if ref.2 then u.nop_job else u.job

/-- Overwrite the slot a `JobRef` points at. -/
def Manager.slotSet (m : Manager) (ref : JobRef) (oj : Option Job) : Manager :=
  m.updateUnit ref.1 fun u => if ref.2 then { u with nop_job := oj } else { u with job := oj }

/-- Rewrite the job in a slot in place (no-op on an empty slot). -/
def Manager.slotModify (m : Manager) (ref : JobRef) (f : Job → Job) : Manager :=
  m.updateUnit ref.1 fun u =>
    if ref.2 then { u with nop_job := u.nop_job.map f } else { u with job := u.job.map f }

/-- The slot a job of type `t` on unit `uid` occupies:
`pj = (j->type == JOB_NOP) ? &j->unit->nop_job : &j->unit->job`. -/
def jobRefOfJob (j : Job) : JobRef := (j.unit, j.type = .nop)

/-- Search one unit's slots for a job with the given id. -/
def unitFindJob (u : SdUnit) (id : Nat) : Option JobRef :=
  if u.job.map Job.id = some id then some (u.id, false)
  else if u.nop_job.map Job.id = some id then some (u.id, true)
  else none

/-- `manager_get_job`: the id → job hashmap lookup, modelled as a search
over the slots (every installed job is in the hashmap and vice versa). -/
def manager_get_job (m : Manager) (id : Nat) : Option JobRef :=
  m.units.findSome? (fun u => unitFindJob u id)

/-- Number of installed jobs (slot occupancies). -/
def Manager.countJobs (m : Manager) : Nat :=
  (m.units.map fun u =>
    (if u.job.isSome then 1 else 0) + (if u.nop_job.isSome then 1 else 0)).sum

/-- The activation state `unit_active_state(u)` of the unit `uid` points
at (`inactive` when the unit does not exist, which cannot happen for a
live unit pointer). -/
def Manager.activeStateOf (m : Manager) (uid : UnitId) : UnitActiveState :=
  match m.getUnit uid with
  | some u => u.active_state
  | none => .inactive

/-!
## State transitions (`job.c` lines 116–164, 826–995)
-/

/-- Linux errno values used by the engine (always negated at use sites). -/
def ENOEXEC : Int := 8
def EAGAIN : Int := 11
def EINVAL : Int := 22
def EBADR : Int := 53
def EEXIST : Int := 17
def EPROTO : Int := 71
def ENOTSUP : Int := 95
def EALREADY : Int := 114

/-- `job_set_state` (`job.c` line 116): record the new state, and, while
the job is installed, keep `n_running_jobs` in sync (entering `running`
increments, leaving it decrements). -/
def job_set_state (m : Manager) (ref : JobRef) (s : JobState) : Manager :=
  match m.slotGet ref with
  | none => m
  | some j =>
    if j.state = s then m
    else
      let m := m.slotModify ref fun x => { x with state := s }
      if ¬ j.installed then m
      else if s = .running then { m with n_running_jobs := m.n_running_jobs + 1 }
      else { m with n_running_jobs := m.n_running_jobs - 1 }

/-- `job_uninstall` (`job.c` line 142): force the job back to `waiting`
(updating `n_running_jobs`), empty its slot and drop it from the id index
(slot emptiness is the index here).  The removed-signal emission is
external. -/
def job_uninstall (m : Manager) (ref : JobRef) : Manager :=
  match m.slotGet ref with
  | none => m
  | some _ =>
    let m := job_set_state m ref .waiting
    m.slotSet ref none

/-- `job_add_to_run_queue` (`job.c` line 983): nothing if the bit is
already set, otherwise prepend to the run queue and set the bit (the
dispatch event-source arming is external). -/
def job_add_to_run_queue (m : Manager) (ref : JobRef) : Manager :=
  match m.slotGet ref with
  | none => m
  | some j =>
    if j.in_run_queue then m
    else
      let m := m.slotModify ref fun x => { x with in_run_queue := true }
      { m with run_queue := ref :: m.run_queue }

/-- The two `SET_FOREACH` loops after the `finish:` label of
`job_finish_and_invalidate`: for every listed unit that has a regular job,
add that job to the run queue (`job_add_to_run_queue` itself skips empty
slots). -/
def addJobsToRunQueue : Manager → List UnitId → Manager
  | m, [] => m
  | m, oid :: rest => addJobsToRunQueue (job_add_to_run_queue m (oid, false)) rest

/-- One `SET_FOREACH` propagation loop of `job_finish_and_invalidate`: for
every listed unit whose regular job is a `start`/`verify-active` job (and,
when `skipOverride` is set — the `required_by_overridable` loop — does not
have `override` set), finish that job through `finishFn`. -/
def propagateDeps (finishFn : Manager → JobRef → Manager) :
    Manager → List UnitId → Bool → Manager
  | m, [], _ => m
  | m, oid :: rest, skipOverride =>
    let m' :=
      match (m.getUnit oid).bind SdUnit.job with
      | some oj =>
        if (oj.type = .start ∨ oj.type = .verify_active) ∧
           (skipOverride = false ∨ oj.override = false)
        then finishFn m (oid, false)
        else m
      | none => m
    propagateDeps finishFn m' rest skipOverride

/-- The restart-patching branch of `job_finish_and_invalidate` (`job.c`
lines 852–861): convert the job's type to `start`, reset its state to
`waiting`, and put it back on the run queue; the job is *not*
uninstalled. -/
def jfiPatch (m : Manager) (ref : JobRef) : Manager :=
  let m := m.slotModify ref fun x => { x with type := .start }
  let m := job_set_state m ref .waiting
  job_add_to_run_queue m ref

/-- The removal steps of `job_finish_and_invalidate` (`job.c` lines
863–872): count `failed`/`invalid` results, uninstall, and free the job
(`job_free` unlinks it from the run queue; `j` is the job as it was read
from the slot, whose `in_run_queue` bit tells whether it was queued). -/
def jfiRemove (m : Manager) (ref : JobRef) (j : Job) (result : JobResult) : Manager :=
  let m := if result = .failed ∨ result = .invalid then
             { m with n_failed_jobs := m.n_failed_jobs + 1 }
           else m
  let m := job_uninstall m ref
  if j.in_run_queue then { m with run_queue := m.run_queue.erase ref } else m

/-- The dependent-failure propagation of `job_finish_and_invalidate`
(`job.c` lines 874–907), parameterized by the recursive finish call `dep`:
when `recursive` and the result is not `done`, a finished
`start`/`verify-active` job fails the `start`/`verify-active` jobs of the
units in `required_by`, `bound_by` and (skipping `override` peers)
`required_by_overridable`; a finished `stop` job fails those of
`conflicted_by`. -/
def jfiPropagate (dep : Manager → JobRef → Manager) (m : Manager) (u : SdUnit)
    (t : JobType) (result : JobResult) (recursive : Bool) : Manager :=
  if result ≠ .done ∧ recursive then
    if t = .start ∨ t = .verify_active then
      propagateDeps dep
        (propagateDeps dep (propagateDeps dep m u.required_by false) u.bound_by false)
        u.required_by_overridable true
    else if t = .stop then propagateDeps dep m u.conflicted_by false
    else m
  else m

/-- `job_finish_and_invalidate` (`job.c` line 826), with explicit recursion
fuel (the C recursion terminates because every recursive call uninstalls a
job first; any fuel of at least the number of installed jobs plus one is
enough, and the `job_finish_and_invalidate` wrapper below supplies it).

Steps, in source order: record the finish event (ghost log); patch a
successful `restart` into a waiting `start` and requeue it instead of
uninstalling (`jfiPatch`); otherwise uninstall (`jfiRemove`) and fail the
dependents (`jfiPropagate`); finally requeue the jobs of all
`after`/`before` neighbours of the unit `u = j->unit` (read before the
mutations, like the C pointer).  Status printing, `OnFailure` triggering
and `manager_check_finished` are external. -/
def jfi : Nat → Manager → JobRef → JobResult → Bool → Bool → Manager
  | 0, m, _, _, _, _ => m
  | fuel + 1, m, ref, result, recursive, _already =>
    match m.slotGet ref with
    | none => m
    | some j =>
      match m.getUnit j.unit with
      | none => m
      | some u =>
        if result = .done ∧ j.type = .restart then
          addJobsToRunQueue
            (addJobsToRunQueue
              (jfiPatch { m with finished := (j.id, j.type, result) :: m.finished } ref)
              u.after)
            u.before
        else
          addJobsToRunQueue
            (addJobsToRunQueue
              (jfiPropagate (fun m r => jfi fuel m r .dependency true false)
                (jfiRemove { m with finished := (j.id, j.type, result) :: m.finished }
                  ref j result)
                u j.type result recursive)
              u.after)
            u.before

/-- `job_finish_and_invalidate` with enough fuel for the real recursion. -/
def job_finish_and_invalidate (m : Manager) (ref : JobRef) (result : JobResult)
    (recursive already : Bool) : Manager :=
  jfi (m.countJobs + 1) m ref result recursive already

/-- `job_dispatch_timer` (`job.c` line 943): the per-job timer fired;
finish the job with result `timeout`, recursively.  The subsequent
`emergency_action` is external. -/
def job_dispatch_timer (m : Manager) (ref : JobRef) : Manager :=
  job_finish_and_invalidate m ref .timeout true false

/-!
## Runnability and dispatch (`job.c` lines 448–608)
-/

/-- `job_is_runnable` (`job.c` line 448), for job `j` of unit `u` (the C
code reads `j->unit` through the live pointer; callers pass the unit `j`
belongs to): `ignore_order` and `nop` short-circuit to runnable; positive
types wait while any unit in the `after` set has a (regular) job; every
type waits while any unit in the `before` set has a `stop` or `restart`
job. -/
def job_is_runnable (m : Manager) (u : SdUnit) (j : Job) : Bool :=
  if j.ignore_order then true
  else if j.type = .nop then true
  else
    let afterOk : Bool :=
      if j.type = .start ∨ j.type = .verify_active ∨ j.type = .reload then
        u.after.all fun oid => !((m.getUnit oid).bind SdUnit.job).isSome
      else true
    let beforeOk : Bool :=
      u.before.all fun oid =>
        match (m.getUnit oid).bind SdUnit.job with
        | some oj => !(oj.type = .stop || oj.type = .restart)
        | none => true
    afterOk && beforeOk

/-- The entry steps of `job_run_and_invalidate` (`job.c` lines 528–529):
`LIST_REMOVE` from the run queue and clear the `in_run_queue` bit. -/
def job_run_dequeue (m : Manager) (ref : JobRef) : Manager :=
  { m.slotModify ref (fun x => { x with in_run_queue := false }) with
    run_queue := m.run_queue.erase ref }

/-- The unit primitive invocation of `job_run_and_invalidate` (`job.c`
lines 547–587): the return code of the primitive corresponding to the job
type, with `-EBADR` from `unit_start`/`unit_stop` converted to 0 ("If this
unit cannot be started/stopped, then simply wait"), `verify-active`
synthesized from the unit's activation state, and `nop` returning
`-EALREADY`.  The default branch is the C `assert_not_reached`. -/
def job_run_primitive (u : SdUnit) (t : JobType) : Int :=
  match t with
  | .start => if u.start_r = -EBADR then 0 else u.start_r
  | .verify_active =>
    if UNIT_IS_ACTIVE_OR_RELOADING u.active_state then -EALREADY
    else if u.active_state = .activating then -EAGAIN
    else -EBADR
  | .stop => if u.stop_r = -EBADR then 0 else u.stop_r
  | .restart => if u.stop_r = -EBADR then 0 else u.stop_r
  | .reload => u.reload_r
  | .nop => -EALREADY
  | _ => 0

/-- The post-primitive mapping of `job_run_and_invalidate` (`job.c` lines
589–605): re-look the job up by its captured id, then map the return code
to a terminal result (`-EALREADY` → `done` with the already flag,
`-EBADR` → `skipped`, `-ENOEXEC` → `invalid`, `-EPROTO` → `assert`,
`-ENOTSUP` → `unsupported`, `-EAGAIN` → back to `waiting`, other negatives
→ `failed`, non-negative → keep running). -/
def job_run_finish (m : Manager) (id : Nat) (r : Int) : Manager × Int :=
  match manager_get_job m id with
  | none => (m, r)
  | some ref' =>
    if r = -EALREADY then (job_finish_and_invalidate m ref' .done true true, r)
    else if r = -EBADR then (job_finish_and_invalidate m ref' .skipped true false, r)
    else if r = -ENOEXEC then (job_finish_and_invalidate m ref' .invalid true false, r)
    else if r = -EPROTO then (job_finish_and_invalidate m ref' .assert true false, r)
    else if r = -ENOTSUP then (job_finish_and_invalidate m ref' .unsupported true false, r)
    else if r = -EAGAIN then (job_set_state m ref' .waiting, r)
    else if r < 0 then (job_finish_and_invalidate m ref' .failed true false, r)
    else (m, r)

/-- `job_run_and_invalidate` (`job.c` line 518): drop the job from the run
queue; bail out if it is no longer waiting; report `-EAGAIN` if it is not
runnable yet (it stays installed and waiting); otherwise go to `running`,
invoke the unit primitive for its type (`job_run_primitive`), and map the
return code to a terminal result via the captured-id re-lookup
(`job_run_finish`; with no external side effects in the model the capture
happens at the lookup).  Returns the manager and the C return value. -/
def job_run_and_invalidate (m : Manager) (ref : JobRef) : Manager × Int :=
  match m.slotGet ref with
  | none => (m, 0)
  | some j =>
    if j.state ≠ .waiting then (job_run_dequeue m ref, 0)
    else
      match (job_run_dequeue m ref).getUnit j.unit with
      | none => (job_run_dequeue m ref, 0)
      | some u =>
        if ¬ job_is_runnable (job_run_dequeue m ref) u j then
          (job_run_dequeue m ref, -EAGAIN)
        else
          job_run_finish (job_set_state (job_run_dequeue m ref) ref .running) j.id
            (job_run_primitive u j.type)

/-!
## Installation (`job.c` lines 183–275)
-/

/-- `job_merge_into_installed` (`job.c` line 183): merge the incoming
job's type into the installed one (collapsing with the unit's activation
state `s`; a failed merge — impossible for non-conflicting callers —
leaves the type unchanged, as `job_type_merge_and_collapse` leaves `*a`),
and OR the `override`, `irreversible` and `ignore_order` flags.  A `nop`
incumbent stays `nop`. -/
def job_merge_into_installed (uj other : Job) (s : UnitActiveState) : Job :=
  let t :=
    if uj.type ≠ .nop then
      match job_type_merge_and_collapse uj.type other.type s with
      | some t => t
      | none => uj.type
    else uj.type
  { uj with
    type := t
    override := uj.override || other.override
    irreversible := uj.irreversible || other.irreversible
    ignore_order := uj.ignore_order || other.ignore_order }

/-- Place a new job into its (empty) slot: `*pj = j; j->installed = true;
m->n_installed_jobs++`. -/
def installJobIntoSlot (m : Manager) (j : Job) : Manager × JobRef :=
  let ref := jobRefOfJob j
  let m := m.slotSet ref (some { j with installed := true })
  ({ m with n_installed_jobs := m.n_installed_jobs + 1 }, ref)

/-- `job_install` (`job.c` line 197).  If the slot is occupied: a
conflicting incumbent is finished with `canceled` (non-recursively) and
the new job installed into the then-empty slot; a mergeable waiting
incumbent — or running one when late merge is allowed and its type is a
superset — absorbs the new job; a mergeable running incumbent that is not
a superset absorbs the new job and is forced back to `waiting` for
re-dispatch.  Otherwise the job is installed into the empty slot.
Returns the surviving job's ref. -/
def job_install (m : Manager) (j : Job) : Manager × JobRef :=
  let ref := jobRefOfJob j
  match m.slotGet ref with
  | some uj =>
    if job_type_is_conflicting uj.type j.type then
      let m := job_finish_and_invalidate m ref .canceled false false
      installJobIntoSlot m j
    else if uj.state = .waiting ∨
            (job_type_allows_late_merge j.type ∧ job_type_is_superset uj.type j.type) then
      (m.slotModify ref fun x => job_merge_into_installed x j (m.activeStateOf j.unit), ref)
    else
      let m := m.slotModify ref fun x => job_merge_into_installed x j (m.activeStateOf j.unit)
      (job_set_state m ref .waiting, ref)
  | none => installJobIntoSlot m j

/-- `job_install_deserialized` (`job.c` line 248): refuse job types outside
the transaction range (`-EINVAL`) and occupied slots (`-EEXIST`); otherwise
install, mark `reloaded`, and re-count a running job. -/
def job_install_deserialized (m : Manager) (j : Job) : Manager × Option Int :=
  if ¬ j.type.inTransaction then (m, some (-EINVAL))
  else
    let ref := jobRefOfJob j
    match m.slotGet ref with
    | some _ => (m, some (-EEXIST))
    | none =>
      let m := m.slotSet ref (some { j with installed := true, reloaded := true })
      (if j.state = .running then { m with n_running_jobs := m.n_running_jobs + 1 } else m,
       none)

/-- Modelled from the spec: the full installation entry of the operation
surface.  The transaction layer (`transaction.c`, not under `src/`)
refuses a transaction whose job conflicts with an `irreversible` incumbent
("irreversible jobs cannot be canceled by a later conflicting job; the
later job's installation fails"), and after applying the transaction the
installed job lands in `WAITING` and "is appended to the run queue"
(spec §2 control flow). -/
def manager_install_job (m : Manager) (j : Job) : Except String (Manager × JobRef) :=
  match m.slotGet (jobRefOfJob j) with
  | some uj =>
    if uj.irreversible ∧ job_type_is_conflicting uj.type j.type then
      .error "transaction-is-destructive"
    else
      let (m, ref) := job_install m j
      .ok (job_add_to_run_queue m ref, ref)
  | none =>
    let (m, ref) := job_install m j
    .ok (job_add_to_run_queue m ref, ref)

/-- Install-and-enqueue without the irreversibility gate, as
`transaction_apply` does once a transaction was accepted. -/
def manager_install_and_enqueue (m : Manager) (j : Job) : Manager :=
  let (m, ref) := job_install m j
  job_add_to_run_queue m ref

/-!
## Serialization (`job.c` lines 1023–1147)

The `key=value\n` stream is modelled one line per `(key, value)` pair,
after the split at the first `=` that `job_deserialize` performs
(`strcspn(l, "=")`); no key contains `=`, so the two views are in
bijection.  The end-of-record blank line is the end of the list.
-/

/-- `job_serialize` (`job.c` line 1023): the fields, in emission order;
`job-begin` is omitted when zero; `bus_track_serialize` emits one
`subscribed=` line per client. -/
def job_serialize (j : Job) : List (String × String) :=
  [("job-id", renderNat j.id),
   ("job-type", job_type_to_string j.type),
   ("job-state", job_state_to_string j.state),
   ("job-override", yes_no j.override),
   ("job-irreversible", yes_no j.irreversible),
   ("job-sent-dbus-new-signal", yes_no j.sent_dbus_new_signal),
   ("job-ignore-order", yes_no j.ignore_order)] ++
  (if j.begin_usec > 0 then [("job-begin", renderNat j.begin_usec)] else []) ++
  j.clients.map (fun c => ("subscribed", c))

/-- One line of `job_deserialize` (`job.c` line 1042): parse failures are
logged and ignored (the field keeps its value), a `job-type` outside the
transaction range is refused, the boolean fields OR into their current
value, `subscribed` lines accumulate, unknown keys are skipped. -/
def job_deserialize_line (j : Job) (k v : String) : Job :=
  if k = "job-id" then
    match safe_atou32 v with
    | some n => { j with id := n }
    | none => j
  else if k = "job-type" then
    match job_type_from_string v with
    | some t => if t.inTransaction then { j with type := t } else j
    | none => j
  else if k = "job-state" then
    match job_state_from_string v with
    | some s => { j with state := s }
    | none => j
  else if k = "job-override" then
    match parse_boolean v with
    | some b => { j with override := j.override || b }
    | none => j
  else if k = "job-irreversible" then
    match parse_boolean v with
    | some b => { j with irreversible := j.irreversible || b }
    | none => j
  else if k = "job-sent-dbus-new-signal" then
    match parse_boolean v with
    | some b => { j with sent_dbus_new_signal := j.sent_dbus_new_signal || b }
    | none => j
  else if k = "job-ignore-order" then
    match parse_boolean v with
    | some b => { j with ignore_order := j.ignore_order || b }
    | none => j
  else if k = "job-begin" then
    match parse_usec v with
    | some n => { j with begin_usec := n }
    | none => j
  else if k = "subscribed" then
    { j with deserialized_clients := j.deserialized_clients ++ [v] }
  else j

/-- `job_deserialize`: read lines until the end marker, applying each. -/
def job_deserialize (j : Job) (lines : List (String × String)) : Job :=
  lines.foldl (fun j kv => job_deserialize_line j kv.1 kv.2) j

/-- `job_new_raw` (`job.c` line 43): a zero-initialized job bound to a
unit, type `_JOB_TYPE_INVALID`, awaiting deserialization. -/
def job_new_raw (uid : UnitId) : Job :=
  { id := 0
    unit := uid
    type := .invalid
    state := .waiting
    override := false
    irreversible := false
    ignore_order := false
    installed := false
    in_run_queue := false
    reloaded := false
    sent_dbus_new_signal := false
    begin_usec := 0
    clients := []
    deserialized_clients := []
    result := .done }

/-!
## The reachable-state machine

The operation surface of the engine, as a step relation: installing a new
job (with the preconditions `job_install` asserts for a freshly built
transaction job), installing a deserialized job, dispatching a queued job,
finishing a job with an arbitrary result (the path unit code and
cancellation drive), and a per-job timeout firing.
-/

/-- A manager state before any job exists: all slots empty, run queue
empty. -/
def InitState (m : Manager) : Prop :=
  (∀ u ∈ m.units, u.job = none ∧ u.nop_job = none) ∧ m.run_queue = []

/-- One engine operation. -/
inductive Step : Manager → Manager → Prop where
  | install (m : Manager) (j : Job)
      (ht : j.type.inTransaction = true)
      (hs : j.state = .waiting)
      (hi : j.installed = false)
      (hq : j.in_run_queue = false) :
      Step m (manager_install_and_enqueue m j)
  | installDeserialized (m : Manager) (j : Job)
      (hi : j.installed = false)
      (hq : j.in_run_queue = false) :
      Step m (job_install_deserialized m j).1
  | run (m : Manager) (ref : JobRef)
      (h : ∃ j, m.slotGet ref = some j ∧ j.in_run_queue = true) :
      Step m (job_run_and_invalidate m ref).1
  | finish (m : Manager) (ref : JobRef) (result : JobResult)
      (recursive already : Bool) (fuel : Nat) :
      Step m (jfi fuel m ref result recursive already)
  | timer (m : Manager) (ref : JobRef) :
      Step m (job_dispatch_timer m ref)

/-- Reachability: a finite sequence of engine operations. -/
def Reachable (m0 m : Manager) : Prop := Relation.ReflTransGen Step m0 m

/-!
## Invariants
-/

/-- The run-queue invariant: the queue has no duplicates, every queued ref
points at an installed job, and a job's `in_run_queue` bit is set exactly
when its ref is in the queue. -/
def RQInv (m : Manager) : Prop :=
  m.run_queue.Nodup ∧
  (∀ ref ∈ m.run_queue, ∃ j, m.slotGet ref = some j) ∧
  (∀ ref j, m.slotGet ref = some j → (j.in_run_queue = true ↔ ref ∈ m.run_queue))

/-- The slot-type discipline: regular slots hold only merging-range types
(`start`, `verify-active`, `stop`, `reload`, `restart`), nop slots hold
only `nop`. -/
def SlotOK (m : Manager) : Prop :=
  ∀ u ∈ m.units,
    (∀ j, u.job = some j → j.type.isMerging = true) ∧
    (∀ j, u.nop_job = some j → j.type = .nop)

/-- Unit ids and installed-job ids are unique, so the id index
(`manager_get_job`) is a function of the slots. -/
def UniqueIds (m : Manager) : Prop :=
  (m.units.map SdUnit.id).Nodup ∧
  ((m.units.map fun u =>
      (u.job.toList ++ u.nop_job.toList).map Job.id).flatten).Nodup

/-!
## The spec's runnability condition (for comparison with `job_is_runnable`)
-/

/-- The runnability condition as the specification states it: "a job is
runnable when `ignore_order` is set, or its type is `nop`, or both (a) if
its type is one of `start`/`verify-active`/`reload` then no unit in its
unit's `after` set has an installed job, and (b) no unit in its unit's
`before` set has an installed job of type `stop` or `restart`" (a unit's
installed job being its regular-slot occupant). -/
def RunnableSpec (m : Manager) (u : SdUnit) (j : Job) : Prop :=
  j.ignore_order = true ∨ j.type = .nop ∨
  (((j.type = .start ∨ j.type = .verify_active ∨ j.type = .reload) →
      ∀ oid ∈ u.after, ((m.getUnit oid).bind SdUnit.job) = none) ∧
   (∀ oid ∈ u.before, ∀ oj, ((m.getUnit oid).bind SdUnit.job) = some oj →
      oj.type ≠ .stop ∧ oj.type ≠ .restart))

/-!
## Concrete scenarios

Small managers used to instantiate the theorems below at concrete inputs.
-/

/-- A unit with no jobs, no edges, no timeout, primitives returning 0. -/
def mkUnit (id : UnitId) : SdUnit :=
  { id := id
    active_state := .inactive
    job := none
    nop_job := none
    after := []
    before := []
    required_by := []
    required_by_overridable := []
    bound_by := []
    conflicted_by := []
    job_timeout := 0
    start_r := 0
    stop_r := 0
    reload_r := 0 }

/-- A fresh waiting job, as `job_new` builds it. -/
def mkJob (id : Nat) (uid : UnitId) (t : JobType) : Job :=
  { id := id
    unit := uid
    type := t
    state := .waiting
    override := false
    irreversible := false
    ignore_order := false
    installed := false
    in_run_queue := false
    reloaded := false
    sent_dbus_new_signal := false
    begin_usec := 0
    clients := []
    deserialized_clients := []
    result := .done }

/-- A manager over the given units with nothing queued or counted. -/
def mkManager (us : List SdUnit) : Manager :=
  { units := us
    run_queue := []
    n_installed_jobs := 0
    n_running_jobs := 0
    n_failed_jobs := 0
    n_reloading := 0
    current_job_id := 1
    finished := [] }

/-- Ordering scenario (spec §8, scenario 2): `A.after = {B}`; both units
carry installed waiting `start` jobs sitting in the run queue. -/
def mgrOrdering : Manager :=
  { units :=
      [{ mkUnit 0 with
           after := [1]
           job := some { mkJob 2 0 .start with installed := true, in_run_queue := true } },
       { mkUnit 1 with
           job := some { mkJob 1 1 .start with installed := true, in_run_queue := true } }]
    run_queue := [(0, false), (1, false)]
    n_installed_jobs := 2
    n_running_jobs := 0
    n_failed_jobs := 0
    n_reloading := 0
    current_job_id := 3
    finished := [] }

/-- The empty two-unit manager `mgrOrdering` is reached from. -/
def mgrOrderingInit : Manager := mkManager [{ mkUnit 0 with after := [1] }, mkUnit 1]

/-- Timeout scenario (spec §8, scenario 6): unit `1` (F) has a running
`start` job and `required_by = {2}`; unit `2` (G) has a waiting `start`
job in the run queue. -/
def mgrTimeout : Manager :=
  { units :=
      [{ mkUnit 1 with
           required_by := [2]
           job_timeout := 1000000
           job := some { mkJob 1 1 .start with
                           installed := true
                           state := .running
                           begin_usec := 10 } },
       { mkUnit 2 with
           job := some { mkJob 2 2 .start with installed := true, in_run_queue := true } }]
    run_queue := [(2, false)]
    n_installed_jobs := 2
    n_running_jobs := 1
    n_failed_jobs := 0
    n_reloading := 0
    current_job_id := 3
    finished := [] }

/-- A single unit with a waiting, queued `start` job whose `unit_start`
returns `-EBADR`. -/
def mgrStartEBADR : Manager :=
  { units :=
      [{ mkUnit 0 with
           start_r := -EBADR
           job := some { mkJob 1 0 .start with installed := true, in_run_queue := true } }]
    run_queue := [(0, false)]
    n_installed_jobs := 1
    n_running_jobs := 0
    n_failed_jobs := 0
    n_reloading := 0
    current_job_id := 2
    finished := [] }

/-- A single active unit with a waiting, queued `reload` job whose
`unit_reload` returns `-EBADR`. -/
def mgrReloadEBADR : Manager :=
  { units :=
      [{ mkUnit 0 with
           active_state := .active
           reload_r := -EBADR
           job := some { mkJob 1 0 .reload with installed := true, in_run_queue := true } }]
    run_queue := [(0, false)]
    n_installed_jobs := 1
    n_running_jobs := 0
    n_failed_jobs := 0
    n_reloading := 0
    current_job_id := 2
    finished := [] }

/-- Propagation scenario for a failing `start`: unit `0` (with a waiting
`start` job) is required by unit `1` (waiting `start` job), bound by unit
`2` (waiting `verify-active` job) and overridably required by unit `3`
(waiting `start` job without `override`). -/
def mgrDeps : Manager :=
  { units :=
      [{ mkUnit 0 with
           required_by := [1]
           bound_by := [2]
           required_by_overridable := [3]
           job := some { mkJob 1 0 .start with installed := true, state := .running } },
       { mkUnit 1 with
           job := some { mkJob 2 1 .start with installed := true } },
       { mkUnit 2 with
           job := some { mkJob 3 2 .verify_active with installed := true } },
       { mkUnit 3 with
           job := some { mkJob 4 3 .start with installed := true } }]
    run_queue := []
    n_installed_jobs := 4
    n_running_jobs := 1
    n_failed_jobs := 0
    n_reloading := 0
    current_job_id := 5
    finished := [] }

/-- Propagation scenario for a failing `stop`: unit `0` (with a running
`stop` job) is conflicted by unit `1`, which has a waiting `start` job. -/
def mgrConflict : Manager :=
  { units :=
      [{ mkUnit 0 with
           conflicted_by := [1]
           job := some { mkJob 1 0 .stop with installed := true, state := .running } },
       { mkUnit 1 with
           job := some { mkJob 2 1 .start with installed := true } }]
    run_queue := []
    n_installed_jobs := 2
    n_running_jobs := 1
    n_failed_jobs := 0
    n_reloading := 0
    current_job_id := 3
    finished := [] }

/-- A single unit with a running `restart` job (mid-restart: the stop
phase is in flight). -/
def mgrRestart : Manager :=
  { units :=
      [{ mkUnit 0 with
           active_state := .active
           job := some { mkJob 1 0 .restart with installed := true, state := .running } }]
    run_queue := []
    n_installed_jobs := 1
    n_running_jobs := 1
    n_failed_jobs := 0
    n_reloading := 0
    current_job_id := 2
    finished := [] }

/-- A single active unit with an installed, `irreversible` `start` job. -/
def mgrIrreversible : Manager :=
  { units :=
      [{ mkUnit 0 with
           active_state := .active
           job := some { mkJob 1 0 .start with
                           installed := true
                           irreversible := true
                           state := .running } }]
    run_queue := []
    n_installed_jobs := 1
    n_running_jobs := 1
    n_failed_jobs := 0
    n_reloading := 0
    current_job_id := 2
    finished := [] }

/-- A fully featured job for the serialization round-trip. -/
def jobSerial : Job :=
  { id := 4096
    unit := 0
    type := .verify_active
    state := .running
    override := true
    irreversible := true
    ignore_order := true
    installed := true
    in_run_queue := false
    reloaded := false
    sent_dbus_new_signal := true
    begin_usec := 123456789
    clients := [":1.42", ":1.7"]
    deserialized_clients := []
    result := .done }

/-- Serialize a job and deserialize the stream into a fresh
`job_new_raw` job, as the manager does across a live-reload. -/
def job_roundtrip (uid : UnitId) (j : Job) : Job :=
  job_deserialize (job_new_raw uid) (job_serialize j)

/-- Slot/pointer consistency: the job stored in a slot names its own unit,
and sits in the nop slot exactly when its type is `nop` (in C this is the
`j->unit == u` / `j->type == JOB_NOP ? &u->nop_job : &u->job` wiring of
`job_install` and `job_install_deserialized`). -/
def RefOK (m : Manager) : Prop :=
  ∀ ref j, m.slotGet ref = some j → j.unit = ref.1 ∧ (ref.2 = true ↔ j.type = JobType.nop)

/-- The conjunction of the structural invariants the engine maintains. -/
def EngineInv (m : Manager) : Prop := RQInv m ∧ SlotOK m ∧ RefOK m

/-- The `start` job installed second in the ordering scenario. -/
def jobOrderB : Job := mkJob 1 1 .start

/-- The `start` job of the ordered-after unit in the ordering scenario. -/
def jobOrderA : Job := mkJob 2 0 .start

/-- Ordering scenario after installing B's job. -/
def mgrOrdering1 : Manager := manager_install_and_enqueue mgrOrderingInit jobOrderB

/-- Ordering scenario after installing both jobs. -/
def mgrOrdering2 : Manager := manager_install_and_enqueue mgrOrdering1 jobOrderA

/-- Ordering scenario after dispatching A's (non-runnable) job. -/
def mgrOrdering3 : Manager := (job_run_and_invalidate mgrOrdering2 (0, false)).1

/-!
## Basic lemmas about the state accessors
-/

theorem getUnit_set_queue (m : Manager) (q : List JobRef) (uid : UnitId) :
    (Manager.getUnit { m with run_queue := q } uid) = m.getUnit uid := rfl

theorem slotGet_set_queue (m : Manager) (q : List JobRef) (ref : JobRef) :
    (Manager.slotGet { m with run_queue := q } ref) = m.slotGet ref := rfl

theorem slotGet_set_finished (m : Manager) (l : List (Nat × JobType × JobResult)) (ref : JobRef) :
    (Manager.slotGet { m with finished := l } ref) = m.slotGet ref := rfl

theorem slotGet_set_nfailed (m : Manager) (n : Nat) (ref : JobRef) :
    (Manager.slotGet { m with n_failed_jobs := n } ref) = m.slotGet ref := rfl

theorem slotGet_set_nrunning (m : Manager) (n : Nat) (ref : JobRef) :
    (Manager.slotGet { m with n_running_jobs := n } ref) = m.slotGet ref := rfl

theorem run_queue_updateUnit (m : Manager) (uid : UnitId) (f : SdUnit → SdUnit) :
    (m.updateUnit uid f).run_queue = m.run_queue := rfl

theorem finished_updateUnit (m : Manager) (uid : UnitId) (f : SdUnit → SdUnit) :
    (m.updateUnit uid f).finished = m.finished := rfl

theorem getUnit_updateUnit (m : Manager) (uid : UnitId) (f : SdUnit → SdUnit)
    (hf : ∀ u, (f u).id = u.id) (uid' : UnitId) :
    (m.updateUnit uid f).getUnit uid' =
      if uid' = uid then (m.getUnit uid').map f else m.getUnit uid' := by
  have key : ∀ l : List SdUnit,
      (l.map fun u => if u.id = uid then f u else u).find? (fun u => u.id = uid') =
        if uid' = uid then (l.find? (fun u => u.id = uid')).map f
        else l.find? (fun u => u.id = uid') := by
    intro l
    induction l with
    | nil => by_cases h : uid' = uid <;> simp [h]
    | cons u us ih =>
      simp only [List.map_cons]
      by_cases huu : u.id = uid
      · rw [if_pos huu]
        by_cases hu : u.id = uid'
        · have h1 : uid' = uid := by rw [← hu, huu]
          rw [List.find?_cons_of_pos _ (by simp [hf, hu]), if_pos h1,
              List.find?_cons_of_pos _ (by simp [hu])]
          simp
        · have h1 : ¬ uid' = uid := fun h => hu (huu.trans h.symm)
          rw [List.find?_cons_of_neg _ (by simp [hf, hu]), if_neg h1,
              List.find?_cons_of_neg _ (by simp [hu])]
          rw [ih, if_neg h1]
      · rw [if_neg huu]
        by_cases hu : u.id = uid'
        · have h1 : ¬ uid' = uid := fun h => huu (hu.trans h)
          rw [List.find?_cons_of_pos _ (by simp [hu]),
              List.find?_cons_of_pos _ (by simp [hu]), if_neg h1]
        · rw [List.find?_cons_of_neg _ (by simp [hu]),
              List.find?_cons_of_neg _ (by simp [hu])]
          exact ih
  exact key m.units

theorem slotGet_slotModify_self (m : Manager) (ref : JobRef) (f : Job → Job) :
    (m.slotModify ref f).slotGet ref = (m.slotGet ref).map f := by
  unfold Manager.slotModify Manager.slotGet
  rw [getUnit_updateUnit _ _ _ (fun u => by by_cases h : ref.2 <;> simp [h]) _, if_pos rfl]
  cases h : m.getUnit ref.1 with
  | none => simp
  | some u => by_cases h2 : ref.2 <;> simp [h2]

theorem slotGet_slotModify_ne (m : Manager) (ref ref' : JobRef) (f : Job → Job)
    (h : ref' ≠ ref) :
    (m.slotModify ref f).slotGet ref' = m.slotGet ref' := by
  unfold Manager.slotModify Manager.slotGet
  rw [getUnit_updateUnit _ _ _ (fun u => by by_cases hb : ref.2 <;> simp [hb]) _]
  by_cases h1 : ref'.1 = ref.1
  · rw [if_pos h1]
    have h2 : ref'.2 ≠ ref.2 := by
      intro h2; exact h (Prod.ext h1 h2)
    cases hu : m.getUnit ref'.1 with
    | none => simp
    | some u =>
      by_cases hb : ref.2
      · have hb' : ref'.2 = false := by
          cases hv : ref'.2 <;> simp_all
        simp [hb, hb']
      · have hb' : ref'.2 = true := by
          cases hv : ref'.2 <;> simp_all
        simp [hb, hb']
  · rw [if_neg h1]

theorem slotGet_slotSet_self (m : Manager) (ref : JobRef) (oj : Option Job)
    (u : SdUnit) (hu : m.getUnit ref.1 = some u) :
    (m.slotSet ref oj).slotGet ref = oj := by
  unfold Manager.slotSet Manager.slotGet
  rw [getUnit_updateUnit _ _ _ (fun u => by by_cases h : ref.2 <;> simp [h]) _, if_pos rfl, hu]
  by_cases h2 : ref.2 <;> simp [h2]

theorem slotGet_slotSet_ne (m : Manager) (ref ref' : JobRef) (oj : Option Job)
    (h : ref' ≠ ref) :
    (m.slotSet ref oj).slotGet ref' = m.slotGet ref' := by
  unfold Manager.slotSet Manager.slotGet
  rw [getUnit_updateUnit _ _ _ (fun u => by by_cases hb : ref.2 <;> simp [hb]) _]
  by_cases h1 : ref'.1 = ref.1
  · rw [if_pos h1]
    have h2 : ref'.2 ≠ ref.2 := by
      intro h2; exact h (Prod.ext h1 h2)
    cases hu : m.getUnit ref'.1 with
    | none => simp
    | some u =>
      by_cases hb : ref.2
      · have hb' : ref'.2 = false := by
          cases hv : ref'.2 <;> simp_all
        simp [hb, hb']
      · have hb' : ref'.2 = true := by
          cases hv : ref'.2 <;> simp_all
        simp [hb, hb']
  · rw [if_neg h1]

/-!
## Shape lemmas for the primitive operations
-/

theorem finished_job_set_state (m : Manager) (ref : JobRef) (s : JobState) :
    (job_set_state m ref s).finished = m.finished := by
  unfold job_set_state
  split
  · rfl
  · split
    · rfl
    · split
      · simp [Manager.slotModify, finished_updateUnit]
      · split <;> simp [Manager.slotModify, finished_updateUnit]

theorem run_queue_job_set_state (m : Manager) (ref : JobRef) (s : JobState) :
    (job_set_state m ref s).run_queue = m.run_queue := by
  unfold job_set_state
  split
  · rfl
  · split
    · rfl
    · split
      · simp [Manager.slotModify, run_queue_updateUnit]
      · split <;> simp [Manager.slotModify, run_queue_updateUnit]

theorem n_failed_job_set_state (m : Manager) (ref : JobRef) (s : JobState) :
    (job_set_state m ref s).n_failed_jobs = m.n_failed_jobs := by
  unfold job_set_state
  split
  · rfl
  · split
    · rfl
    · split
      · simp [Manager.slotModify, Manager.updateUnit]
      · split <;> simp [Manager.slotModify, Manager.updateUnit]

theorem slotGet_job_set_state (m : Manager) (ref : JobRef) (s : JobState) :
    (job_set_state m ref s).slotGet ref =
      (m.slotGet ref).map fun j => { j with state := s } := by
  unfold job_set_state
  split
  · next heq => simp [heq]
  · next j heq =>
    have key : (Manager.slotGet (m.slotModify ref fun x => { x with state := s }) ref) =
        some { j with state := s } := by
      rw [slotGet_slotModify_self, heq]; rfl
    split
    · next h1 => rw [heq]; cases j; simp_all
    · split
      · simp [key, heq]
      · split <;> simp [key, heq, slotGet_set_nrunning]

theorem slotGet_job_set_state_ne (m : Manager) (ref ref' : JobRef) (s : JobState)
    (hne : ref' ≠ ref) :
    (job_set_state m ref s).slotGet ref' = m.slotGet ref' := by
  unfold job_set_state
  split
  · rfl
  · next j heq =>
    have key := slotGet_slotModify_ne m ref ref' (fun x => { x with state := s }) hne
    split
    · rfl
    · split
      · simp [key]
      · split <;> simp [key, slotGet_set_nrunning]

theorem finished_job_uninstall (m : Manager) (ref : JobRef) :
    (job_uninstall m ref).finished = m.finished := by
  unfold job_uninstall
  split
  · rfl
  · simp [Manager.slotSet, finished_updateUnit, finished_job_set_state]

theorem run_queue_job_uninstall (m : Manager) (ref : JobRef) :
    (job_uninstall m ref).run_queue = m.run_queue := by
  unfold job_uninstall
  split
  · rfl
  · simp [Manager.slotSet, run_queue_updateUnit, run_queue_job_set_state]

theorem n_failed_job_uninstall (m : Manager) (ref : JobRef) :
    (job_uninstall m ref).n_failed_jobs = m.n_failed_jobs := by
  unfold job_uninstall
  split
  · rfl
  · simp [Manager.slotSet, Manager.updateUnit, n_failed_job_set_state]

theorem slotGet_job_uninstall_ne (m : Manager) (ref ref' : JobRef) (hne : ref' ≠ ref) :
    (job_uninstall m ref).slotGet ref' = m.slotGet ref' := by
  unfold job_uninstall
  split
  · rfl
  · rw [slotGet_slotSet_ne _ _ _ _ hne, slotGet_job_set_state_ne _ _ _ _ hne]

theorem slotGet_job_uninstall_self (m : Manager) (ref : JobRef) (j : Job)
    (h : m.slotGet ref = some j) :
    (job_uninstall m ref).slotGet ref = none := by
  unfold job_uninstall
  rw [h]
  have hu : ∃ u, (job_set_state m ref .waiting).getUnit ref.1 = some u := by
    have hs := slotGet_job_set_state m ref .waiting
    rw [h] at hs
    unfold Manager.slotGet at hs
    cases hg : Manager.getUnit (job_set_state m ref .waiting) ref.1 with
    | none => rw [hg] at hs; simp at hs
    | some u => exact ⟨u, rfl⟩
  obtain ⟨u, hu⟩ := hu
  exact slotGet_slotSet_self _ _ _ u hu

theorem finished_job_add_to_run_queue (m : Manager) (ref : JobRef) :
    (job_add_to_run_queue m ref).finished = m.finished := by
  unfold job_add_to_run_queue
  split
  · rfl
  · split
    · rfl
    · simp [Manager.slotModify, finished_updateUnit]

theorem n_failed_job_add_to_run_queue (m : Manager) (ref : JobRef) :
    (job_add_to_run_queue m ref).n_failed_jobs = m.n_failed_jobs := by
  unfold job_add_to_run_queue
  split
  · rfl
  · split
    · rfl
    · simp [Manager.slotModify, Manager.updateUnit]

theorem slotGet_job_add_to_run_queue (m : Manager) (ref : JobRef) :
    (job_add_to_run_queue m ref).slotGet ref =
      (m.slotGet ref).map fun j => { j with in_run_queue := true } := by
  unfold job_add_to_run_queue
  split
  · next heq => simp [heq]
  · next j heq =>
    split
    · next h1 => rw [heq]; cases j; simp_all
    · have key := slotGet_slotModify_self m ref (fun x => { x with in_run_queue := true })
      simp [slotGet_set_queue, key, heq]

theorem slotGet_job_add_to_run_queue_ne (m : Manager) (ref ref' : JobRef) (hne : ref' ≠ ref) :
    (job_add_to_run_queue m ref).slotGet ref' = m.slotGet ref' := by
  unfold job_add_to_run_queue
  split
  · rfl
  · split
    · rfl
    · have key := slotGet_slotModify_ne m ref ref' (fun x => { x with in_run_queue := true }) hne
      simp [slotGet_set_queue, key]

theorem mem_run_queue_job_add_to_run_queue (m : Manager) (ref x : JobRef)
    (h : x ∈ m.run_queue) : x ∈ (job_add_to_run_queue m ref).run_queue := by
  unfold job_add_to_run_queue
  split
  · exact h
  · split
    · exact h
    · simp [Manager.slotModify, run_queue_updateUnit]
      exact Or.inr h

theorem finished_addJobsToRunQueue (m : Manager) (l : List UnitId) :
    (addJobsToRunQueue m l).finished = m.finished := by
  induction l generalizing m with
  | nil => rfl
  | cons o rest ih =>
    show (addJobsToRunQueue (job_add_to_run_queue m (o, false)) rest).finished = m.finished
    rw [ih, finished_job_add_to_run_queue]

theorem n_failed_addJobsToRunQueue (m : Manager) (l : List UnitId) :
    (addJobsToRunQueue m l).n_failed_jobs = m.n_failed_jobs := by
  induction l generalizing m with
  | nil => rfl
  | cons o rest ih =>
    show (addJobsToRunQueue (job_add_to_run_queue m (o, false)) rest).n_failed_jobs = _
    rw [ih, n_failed_job_add_to_run_queue]

theorem mem_run_queue_addJobsToRunQueue (m : Manager) (l : List UnitId) (x : JobRef)
    (h : x ∈ m.run_queue) : x ∈ (addJobsToRunQueue m l).run_queue := by
  induction l generalizing m with
  | nil => exact h
  | cons o rest ih =>
    exact ih _ (mem_run_queue_job_add_to_run_queue _ _ _ h)

/-- `addJobsToRunQueue` only ever flips `in_run_queue` bits: any occupied
slot stays occupied by the same job up to that bit. -/
theorem slotGet_addJobsToRunQueue (m : Manager) (l : List UnitId) (ref : JobRef) (j : Job)
    (h : m.slotGet ref = some j) :
    (addJobsToRunQueue m l).slotGet ref = some j ∨
    (addJobsToRunQueue m l).slotGet ref = some { j with in_run_queue := true } := by
  induction l generalizing m j with
  | nil => exact Or.inl h
  | cons o rest ih =>
    show ((addJobsToRunQueue (job_add_to_run_queue m (o, false)) rest).slotGet ref = some j) ∨ _
    by_cases he : ref = ((o, false) : JobRef)
    · subst he
      have := slotGet_job_add_to_run_queue m (o, false)
      rw [h] at this
      rcases ih (job_add_to_run_queue m (o, false)) { j with in_run_queue := true }
          (by simpa using this) with h2 | h2
      · exact Or.inr h2
      · right
        simpa using h2
    · have := slotGet_job_add_to_run_queue_ne m _ ref (fun hh => he hh)
      rw [h] at this
      exact ih _ j this

/-- `addJobsToRunQueue` never fills an empty slot. -/
theorem slotGet_addJobsToRunQueue_none (m : Manager) (l : List UnitId) (ref : JobRef)
    (h : m.slotGet ref = none) :
    (addJobsToRunQueue m l).slotGet ref = none := by
  induction l generalizing m with
  | nil => exact h
  | cons o rest ih =>
    show (addJobsToRunQueue (job_add_to_run_queue m (o, false)) rest).slotGet ref = none
    by_cases he : ref = ((o, false) : JobRef)
    · subst he
      have := slotGet_job_add_to_run_queue m (o, false)
      rw [h] at this
      exact ih _ (by simpa using this)
    · have := slotGet_job_add_to_run_queue_ne m _ ref (fun hh => he hh)
      rw [h] at this
      exact ih _ this


theorem finished_jfiPatch (m : Manager) (ref : JobRef) :
    (jfiPatch m ref).finished = m.finished := by
  unfold jfiPatch
  rw [finished_job_add_to_run_queue, finished_job_set_state]
  simp [Manager.slotModify, finished_updateUnit]

theorem n_failed_jfiPatch (m : Manager) (ref : JobRef) :
    (jfiPatch m ref).n_failed_jobs = m.n_failed_jobs := by
  unfold jfiPatch
  rw [n_failed_job_add_to_run_queue, n_failed_job_set_state]
  simp [Manager.slotModify, Manager.updateUnit]

theorem slotGet_jfiPatch_ne (m : Manager) (ref ref' : JobRef) (hne : ref' ≠ ref) :
    (jfiPatch m ref).slotGet ref' = m.slotGet ref' := by
  unfold jfiPatch
  rw [slotGet_job_add_to_run_queue_ne _ _ _ hne, slotGet_job_set_state_ne _ _ _ _ hne,
      slotGet_slotModify_ne _ _ _ _ hne]

theorem slotGet_jfiPatch_self (m : Manager) (ref : JobRef) :
    (jfiPatch m ref).slotGet ref =
      (m.slotGet ref).map fun j =>
        { j with type := .start, state := .waiting, in_run_queue := true } := by
  unfold jfiPatch
  rw [slotGet_job_add_to_run_queue, slotGet_job_set_state, slotGet_slotModify_self]
  cases m.slotGet ref <;> rfl

theorem finished_jfiRemove (m : Manager) (ref : JobRef) (j : Job) (result : JobResult) :
    (jfiRemove m ref j result).finished = m.finished := by
  unfold jfiRemove
  split <;> split <;> simp [finished_job_uninstall]

theorem slotGet_jfiRemove_ne (m : Manager) (ref ref' : JobRef) (j : Job)
    (result : JobResult) (hne : ref' ≠ ref) :
    (jfiRemove m ref j result).slotGet ref' = m.slotGet ref' := by
  unfold jfiRemove
  split
  · split <;> simp [slotGet_set_queue, slotGet_job_uninstall_ne _ _ _ hne, slotGet_set_nfailed]
  · split <;> simp [slotGet_set_queue, slotGet_job_uninstall_ne _ _ _ hne]

theorem slotGet_jfiRemove_self (m : Manager) (ref : JobRef) (j j' : Job)
    (result : JobResult) (h : m.slotGet ref = some j') :
    (jfiRemove m ref j result).slotGet ref = none := by
  unfold jfiRemove
  have h1 : Manager.slotGet { m with n_failed_jobs := m.n_failed_jobs + 1 } ref = some j' := by
    rw [slotGet_set_nfailed]; exact h
  split
  · split <;> simp [slotGet_set_queue, slotGet_job_uninstall_self _ _ j' h1]
  · split <;> simp [slotGet_set_queue, slotGet_job_uninstall_self _ _ j' h]

theorem n_failed_jfiRemove (m : Manager) (ref : JobRef) (j : Job) (result : JobResult)
    (hres : ¬ (result = .failed ∨ result = .invalid)) :
    (jfiRemove m ref j result).n_failed_jobs = m.n_failed_jobs := by
  unfold jfiRemove
  rw [if_neg hres]
  split <;> simp [n_failed_job_uninstall]

/-!
## Relational lemmas about the finish cascade
-/

/-- Any reflexive, transitive relation that every `finishFn` step respects
is respected by a whole `propagateDeps` pass. -/
theorem propagateDeps_rel {R : Manager → Manager → Prop}
    (hrefl : ∀ m, R m m) (htrans : ∀ {a b c}, R a b → R b c → R a c)
    {f : Manager → JobRef → Manager} (hf : ∀ m r, R m (f m r)) :
    ∀ (l : List UnitId) (m : Manager) (s : Bool), R m (propagateDeps f m l s) := by
  intro l
  induction l with
  | nil => intro m s; exact hrefl m
  | cons o rest ih =>
    intro m s
    have step : R m (match (m.getUnit o).bind SdUnit.job with
        | some oj =>
          if (oj.type = .start ∨ oj.type = .verify_active) ∧ (s = false ∨ oj.override = false)
          then f m (o, false) else m
        | none => m) := by
      cases (m.getUnit o).bind SdUnit.job with
      | none => exact hrefl m
      | some oj =>
        show R m (if (oj.type = .start ∨ oj.type = .verify_active) ∧
            (s = false ∨ oj.override = false) then f m (o, false) else m)
        by_cases hc : (oj.type = .start ∨ oj.type = .verify_active) ∧
            (s = false ∨ oj.override = false)
        · rw [if_pos hc]; exact hf m (o, false)
        · rw [if_neg hc]; exact hrefl m
    exact htrans step (ih _ s)

/-- `jfiPropagate` respects any reflexive transitive relation its `dep`
respects. -/
theorem jfiPropagate_rel {R : Manager → Manager → Prop}
    (hrefl : ∀ m, R m m) (htrans : ∀ {a b c}, R a b → R b c → R a c)
    {dep : Manager → JobRef → Manager} (hdep : ∀ m r, R m (dep m r))
    (m : Manager) (u : SdUnit) (t : JobType) (result : JobResult) (recursive : Bool) :
    R m (jfiPropagate dep m u t result recursive) := by
  have pd : ∀ (m' : Manager) (l : List UnitId) (s : Bool),
      R m' (propagateDeps dep m' l s) :=
    fun m' l s => propagateDeps_rel hrefl htrans hdep l m' s
  unfold jfiPropagate
  split
  · split
    · exact htrans (pd _ _ _) (htrans (pd _ _ _) (pd _ _ _))
    · split
      · exact pd _ _ _
      · exact hrefl m
  · exact hrefl m

/-- The ghost finish log only grows across `job_finish_and_invalidate`. -/
theorem jfi_finished_mono :
    ∀ (fuel : Nat) (m : Manager) (ref : JobRef) (result : JobResult)
      (recursive already : Bool),
      m.finished ⊆ (jfi fuel m ref result recursive already).finished := by
  intro fuel
  induction fuel with
  | zero => intro m ref result recursive already; exact fun x hx => hx
  | succ fuel ih =>
    intro m ref result recursive already
    unfold jfi
    split
    · exact fun x hx => hx
    · next j heq =>
      split
      · exact fun x hx => hx
      · next u hequ =>
        have base : ∀ X : Manager, X.finished = (j.id, j.type, result) :: m.finished →
            m.finished ⊆ X.finished := by
          intro X hX x hx
          rw [hX]; exact List.mem_cons_of_mem _ hx
        split
        · rw [finished_addJobsToRunQueue, finished_addJobsToRunQueue]
          exact base _ (by rw [finished_jfiPatch])
        · rw [finished_addJobsToRunQueue, finished_addJobsToRunQueue]
          refine (base (jfiRemove { m with finished := (j.id, j.type, result) :: m.finished }
              ref j result) (by rw [finished_jfiRemove])).trans ?_
          exact jfiPropagate_rel (R := fun a b => a.finished ⊆ b.finished)
            (fun _ x hx => hx) (fun h1 h2 => h1.trans h2)
            (fun m r => ih m r .dependency true false) _ _ _ _ _

theorem slotGet_regular (m : Manager) (uid : UnitId) (u : SdUnit)
    (h : m.getUnit uid = some u) : m.slotGet (uid, false) = u.job := by
  unfold Manager.slotGet
  rw [h]
  rfl

/-- The finish cascade never fills an empty slot: jobs are only removed or
rewritten in place, never installed. -/
theorem jfi_slot_none :
    ∀ (fuel : Nat) (m : Manager) (ref0 : JobRef) (result : JobResult)
      (recursive already : Bool) (r : JobRef),
      m.slotGet r = none →
      (jfi fuel m ref0 result recursive already).slotGet r = none := by
  intro fuel
  induction fuel with
  | zero => intro m ref0 result recursive already r hr; exact hr
  | succ fuel ih =>
    intro m ref0 result recursive already r hr
    unfold jfi
    split
    · exact hr
    · next j heq =>
      split
      · exact hr
      · next u hequ =>
        have hner : r ≠ ref0 := by
          intro h; rw [h, heq] at hr; cases hr
        have hM : (Manager.slotGet
            { m with finished := (j.id, j.type, result) :: m.finished } r) = none := hr
        split
        · apply slotGet_addJobsToRunQueue_none
          apply slotGet_addJobsToRunQueue_none
          rw [slotGet_jfiPatch_ne _ _ _ hner]
          exact hM
        · apply slotGet_addJobsToRunQueue_none
          apply slotGet_addJobsToRunQueue_none
          have h2 : (jfiRemove { m with finished := (j.id, j.type, result) :: m.finished }
              ref0 j result).slotGet r = none := by
            rw [slotGet_jfiRemove_ne _ _ _ _ _ hner]
            exact hM
          exact jfiPropagate_rel
            (R := fun a b => ∀ r, a.slotGet r = none → b.slotGet r = none)
            (fun _ _ h => h) (fun h1 h2 r h => h2 r (h1 r h))
            (fun m' r' rr h => ih m' r' .dependency true false rr h) _ _ _ _ _ r h2

/-- Finishing a job whose slot and unit exist records its finish event. -/
theorem jfi_logs (fuel : Nat) (m : Manager) (ref : JobRef) (result : JobResult)
    (recursive already : Bool) (j : Job) (u : SdUnit)
    (hf : fuel ≠ 0) (hj : m.slotGet ref = some j) (hu : m.getUnit j.unit = some u) :
    (j.id, j.type, result) ∈ (jfi fuel m ref result recursive already).finished := by
  obtain ⟨f, rfl⟩ : ∃ f, fuel = f + 1 := ⟨fuel - 1, by omega⟩
  unfold jfi
  split
  · next heq => rw [hj] at heq; cases heq
  · next j' heq =>
    rw [hj] at heq
    injection heq with heq
    subst heq
    split
    · next hequ => rw [hu] at hequ; cases hequ
    · next u' hequ =>
      split
      · rw [finished_addJobsToRunQueue, finished_addJobsToRunQueue, finished_jfiPatch]
        exact List.mem_cons_self _ _
      · rw [finished_addJobsToRunQueue, finished_addJobsToRunQueue]
        have hmem : (j.id, j.type, result) ∈
            (jfiRemove { m with finished := (j.id, j.type, result) :: m.finished }
              ref j result).finished := by
          rw [finished_jfiRemove]
          exact List.mem_cons_self _ _
        exact jfiPropagate_rel (R := fun a b => a.finished ⊆ b.finished)
          (fun _ x hx => hx) (fun h1 h2 => h1.trans h2)
          (fun m' r => jfi_finished_mono f m' r .dependency true false) _ _ _ _ _ hmem

/-- Fields preserved when a job survives a cascade step: identity, type,
`override` flag and owning unit. -/
def SameJobCore (j' j : Job) : Prop :=
  j'.id = j.id ∧ j'.type = j.type ∧ j'.override = j.override ∧ j'.unit = j.unit

theorem SameJobCore_refl (j : Job) : SameJobCore j j := ⟨rfl, rfl, rfl, rfl⟩

theorem SameJobCore_trans {a b c : Job} (h1 : SameJobCore a b) (h2 : SameJobCore b c) :
    SameJobCore a c :=
  ⟨h1.1.trans h2.1, h1.2.1.trans h2.2.1, h1.2.2.1.trans h2.2.2.1, h1.2.2.2.trans h2.2.2.2⟩

theorem addJobs_pres_fields (m : Manager) (l : List UnitId) (r : JobRef) (j : Job)
    (h : m.slotGet r = some j) :
    ∃ j', (addJobsToRunQueue m l).slotGet r = some j' ∧ SameJobCore j' j := by
  rcases slotGet_addJobsToRunQueue m l r j h with h2 | h2
  · exact ⟨j, h2, SameJobCore_refl j⟩
  · exact ⟨_, h2, ⟨rfl, rfl, rfl, rfl⟩⟩

/-- During a `dependency` cascade, every pre-existing job either survives
(same id, type, `override` flag and unit; only its state and run-queue bit
may change) or has been finished with result `dependency`. -/
theorem jfi_dep_pres :
    ∀ (fuel : Nat) (m : Manager) (ref0 : JobRef) (r : JobRef) (j : Job),
      m.slotGet r = some j →
      (∃ j', (jfi fuel m ref0 .dependency true false).slotGet r = some j' ∧
         SameJobCore j' j) ∨
      (j.id, j.type, JobResult.dependency) ∈
        (jfi fuel m ref0 .dependency true false).finished := by
  intro fuel
  induction fuel with
  | zero => intro m ref0 r j hr; exact Or.inl ⟨j, hr, SameJobCore_refl j⟩
  | succ fuel ih =>
    intro m ref0 r j hr
    unfold jfi
    split
    · exact Or.inl ⟨j, hr, SameJobCore_refl j⟩
    · next j0 heq =>
      split
      · exact Or.inl ⟨j, hr, SameJobCore_refl j⟩
      · next u hequ =>
        rw [if_neg (by simp)]
        by_cases hrr : r = ref0
        · subst hrr
          right
          rw [hr] at heq
          injection heq with heq
          subst heq
          rw [finished_addJobsToRunQueue, finished_addJobsToRunQueue]
          have hmem : (j.id, j.type, JobResult.dependency) ∈
              (jfiRemove { m with finished := (j.id, j.type, JobResult.dependency) :: m.finished }
                r j .dependency).finished := by
            rw [finished_jfiRemove]
            exact List.mem_cons_self _ _
          exact jfiPropagate_rel (R := fun a b => a.finished ⊆ b.finished)
            (fun _ x hx => hx) (fun h1 h2 => h1.trans h2)
            (fun m' r' => jfi_finished_mono fuel m' r' .dependency true false) _ _ _ _ _ hmem
        · have e2 : (jfiRemove
              { m with finished := (j0.id, j0.type, JobResult.dependency) :: m.finished }
              ref0 j0 .dependency).slotGet r = some j := by
            rw [slotGet_jfiRemove_ne _ _ _ _ _ hrr]
            exact hr
          have hprop := jfiPropagate_rel
            (R := fun a b => (a.finished ⊆ b.finished) ∧
              ∀ rr jj, a.slotGet rr = some jj →
                (∃ j', b.slotGet rr = some j' ∧ SameJobCore j' jj) ∨
                (jj.id, jj.type, JobResult.dependency) ∈ b.finished)
            (fun m' => ⟨fun x hx => hx, fun rr jj h => Or.inl ⟨jj, h, SameJobCore_refl jj⟩⟩)
            (fun h1 h2 => ⟨h1.1.trans h2.1, fun rr jj h => by
              rcases h1.2 rr jj h with ⟨j', hj', hs⟩ | hmem
              · rcases h2.2 rr j' hj' with ⟨j'', hj'', hs'⟩ | hmem'
                · exact Or.inl ⟨j'', hj'', SameJobCore_trans hs' hs⟩
                · right
                  rw [← hs.1, ← hs.2.1]
                  exact hmem'
              · exact Or.inr (h2.1 hmem)⟩)
            (fun m' r' => ⟨jfi_finished_mono fuel m' r' .dependency true false,
              fun rr jj h => ih m' r' rr jj h⟩)
            (jfiRemove
              { m with finished := (j0.id, j0.type, JobResult.dependency) :: m.finished }
              ref0 j0 .dependency)
            u j0.type .dependency true
          rcases hprop.2 r j e2 with ⟨j', hj', hs⟩ | hmem
          · rcases addJobs_pres_fields _ u.after r j' hj' with ⟨j2, hj2, hs2⟩
            rcases addJobs_pres_fields _ u.before r j2 hj2 with ⟨j3, hj3, hs3⟩
            exact Or.inl ⟨j3, hj3, SameJobCore_trans (SameJobCore_trans hs3 hs2) hs⟩
          · right
            rw [finished_addJobsToRunQueue, finished_addJobsToRunQueue]
            exact hmem

theorem slotGet_false (m : Manager) (uid : UnitId) :
    m.slotGet (uid, false) = (m.getUnit uid).bind SdUnit.job := by
  unfold Manager.slotGet
  cases m.getUnit uid <;> rfl

theorem getUnit_of_slotGet (m : Manager) (ref : JobRef) (j : Job)
    (h : m.slotGet ref = some j) : ∃ u, m.getUnit ref.1 = some u := by
  unfold Manager.slotGet at h
  cases hg : m.getUnit ref.1 with
  | none => rw [hg] at h; cases h
  | some u => exact ⟨u, rfl⟩

/-- The pre/post relation of a `dependency` cascade: the log grows, and
every job either survives with its core fields intact or is logged as
finished with `dependency`. -/
def DepPresRel (a b : Manager) : Prop :=
  (a.finished ⊆ b.finished) ∧
  ∀ r j, a.slotGet r = some j →
    (∃ j', b.slotGet r = some j' ∧ SameJobCore j' j) ∨
    (j.id, j.type, JobResult.dependency) ∈ b.finished

theorem DepPresRel_refl (m : Manager) : DepPresRel m m :=
  ⟨fun _ hx => hx, fun _ jj h => Or.inl ⟨jj, h, SameJobCore_refl jj⟩⟩

theorem DepPresRel_trans {a b c : Manager} (h1 : DepPresRel a b) (h2 : DepPresRel b c) :
    DepPresRel a c := by
  refine ⟨h1.1.trans h2.1, fun rr jj h => ?_⟩
  rcases h1.2 rr jj h with ⟨j', hj', hs⟩ | hmem
  · rcases h2.2 rr j' hj' with ⟨j'', hj'', hs'⟩ | hmem'
    · exact Or.inl ⟨j'', hj'', SameJobCore_trans hs' hs⟩
    · right
      rw [← hs.1, ← hs.2.1]
      exact hmem'
  · exact Or.inr (h2.1 hmem)

theorem DepPresRel_jfi (fuel : Nat) (m : Manager) (ref0 : JobRef) :
    DepPresRel m (jfi fuel m ref0 .dependency true false) :=
  ⟨jfi_finished_mono fuel m ref0 .dependency true false,
   fun r j h => jfi_dep_pres fuel m ref0 r j h⟩

theorem DepPresRel_propagateDeps (fuel : Nat) (l : List UnitId) (m : Manager) (s : Bool) :
    DepPresRel m (propagateDeps (fun m r => jfi fuel m r .dependency true false) m l s) :=
  propagateDeps_rel DepPresRel_refl (fun h1 h2 => DepPresRel_trans h1 h2)
    (fun m' r => DepPresRel_jfi fuel m' r) l m s

/-- If a unit in the list has a `start`/`verify-active` job (not skipped by
the `override` filter), a propagation pass over the list logs a
`dependency` finish for it. -/
theorem propagateDeps_hit (fuel : Nat) (hf : fuel ≠ 0) :
    ∀ (l : List UnitId) (m : Manager) (s : Bool) (oid : UnitId) (dj : Job),
      oid ∈ l →
      m.slotGet (oid, false) = some dj →
      dj.unit = oid →
      (dj.type = .start ∨ dj.type = .verify_active) →
      (s = true → dj.override = false) →
      (dj.id, dj.type, JobResult.dependency) ∈
        (propagateDeps (fun m r => jfi fuel m r .dependency true false) m l s).finished := by
  intro l
  induction l with
  | nil => intro m s oid dj hmem; cases hmem
  | cons o rest ih =>
    intro m s oid dj hmem hslot hunit htype hov
    have hstep : DepPresRel m (match (m.getUnit o).bind SdUnit.job with
        | some oj =>
          if (oj.type = .start ∨ oj.type = .verify_active) ∧ (s = false ∨ oj.override = false)
          then jfi fuel m (o, false) .dependency true false else m
        | none => m) := by
      cases (m.getUnit o).bind SdUnit.job with
      | none => exact DepPresRel_refl m
      | some oj =>
        show DepPresRel m (if (oj.type = .start ∨ oj.type = .verify_active) ∧
            (s = false ∨ oj.override = false)
            then jfi fuel m (o, false) .dependency true false else m)
        split
        · exact DepPresRel_jfi fuel m (o, false)
        · exact DepPresRel_refl m
    rcases List.mem_cons.mp hmem with hoe | hor
    · -- the head of the list is our unit: its job is finished right here
      subst hoe
      show (dj.id, dj.type, JobResult.dependency) ∈
        (propagateDeps _ (match (m.getUnit oid).bind SdUnit.job with
          | some oj =>
            if (oj.type = .start ∨ oj.type = .verify_active) ∧
               (s = false ∨ oj.override = false)
            then jfi fuel m (oid, false) .dependency true false else m
          | none => m) rest s).finished
      rw [slotGet_false] at hslot
      rw [hslot]
      show (dj.id, dj.type, JobResult.dependency) ∈
        (propagateDeps (fun m r => jfi fuel m r JobResult.dependency true false)
          (if (dj.type = .start ∨ dj.type = .verify_active) ∧ (s = false ∨ dj.override = false)
           then jfi fuel m (oid, false) .dependency true false else m) rest s).finished
      rw [if_pos ⟨htype, by cases s with
        | false => exact Or.inl rfl
        | true => exact Or.inr (hov rfl)⟩]
      have hlog : (dj.id, dj.type, JobResult.dependency) ∈
          (jfi fuel m (oid, false) .dependency true false).finished := by
        obtain ⟨du, hdu⟩ := getUnit_of_slotGet m (oid, false) dj (by rw [slotGet_false]; exact hslot)
        exact jfi_logs fuel m (oid, false) .dependency true false dj du hf
          (by rw [slotGet_false]; exact hslot) (by rw [hunit]; exact hdu)
      exact (DepPresRel_propagateDeps fuel rest _ s).1 hlog
    · -- our unit is further down the list
      rcases hstep.2 (oid, false) dj hslot with ⟨dj', hdj', hcore⟩ | hmem'
      · have htail := ih _ s oid dj' hor hdj'
          (hcore.2.2.2.trans hunit)
          (by rcases htype with h | h
              · exact Or.inl (hcore.2.1.trans h)
              · exact Or.inr (hcore.2.1.trans h))
          (fun hs => (hcore.2.2.1).trans (hov hs))
        rw [hcore.1, hcore.2.1] at htail
        exact htail
      · exact (DepPresRel_propagateDeps fuel rest _ s).1 hmem'

/-- C2: when a job of type `start` or `verify-active` finishes with a
result other than `done` and recursive propagation enabled, every unit in
its unit's `required_by` or `bound_by` set whose installed job has type
`start`/`verify-active` has that job finished with result `dependency`;
for `required_by_overridable` the same holds for peers without `override`;
and when a `stop` job so finishes, the same applies to every unit in its
unit's `conflicted_by` set.  (`dj.unit = oid` states that the dependent
job's unit back-pointer is the unit it is installed on, and `dj.id ≠ j.id`
that the dependent is a different job than the one being finished, both of
which hold for every really installed job.) -/
theorem C2_dependency_propagation
    (fuel : Nat) (m : Manager) (ref : JobRef) (j : Job) (u : SdUnit)
    (result : JobResult) (already : Bool)
    (hfuel : 2 ≤ fuel)
    (hj : m.slotGet ref = some j)
    (hu : m.getUnit j.unit = some u)
    (hres : result ≠ .done) :
    ((j.type = .start ∨ j.type = .verify_active) →
      ∀ oid ∈ u.required_by ++ u.bound_by, ∀ dj : Job,
        m.slotGet (oid, false) = some dj → dj.id ≠ j.id → dj.unit = oid →
        (dj.type = .start ∨ dj.type = .verify_active) →
        (dj.id, dj.type, JobResult.dependency) ∈
          (jfi fuel m ref result true already).finished) ∧
    ((j.type = .start ∨ j.type = .verify_active) →
      ∀ oid ∈ u.required_by_overridable, ∀ dj : Job,
        m.slotGet (oid, false) = some dj → dj.id ≠ j.id → dj.unit = oid →
        (dj.type = .start ∨ dj.type = .verify_active) → dj.override = false →
        (dj.id, dj.type, JobResult.dependency) ∈
          (jfi fuel m ref result true already).finished) ∧
    (j.type = .stop →
      ∀ oid ∈ u.conflicted_by, ∀ dj : Job,
        m.slotGet (oid, false) = some dj → dj.id ≠ j.id → dj.unit = oid →
        (dj.type = .start ∨ dj.type = .verify_active) →
        (dj.id, dj.type, JobResult.dependency) ∈
          (jfi fuel m ref result true already).finished) := by
  obtain ⟨f, rfl⟩ : ∃ f, fuel = f + 1 := ⟨fuel - 1, by omega⟩
  have hf : f ≠ 0 := by omega
  -- the state after log + uninstall, common to all three parts
  have hM2 : ∀ oid (dj : Job), m.slotGet (oid, false) = some dj → dj.id ≠ j.id →
      (jfiRemove { m with finished := (j.id, j.type, result) :: m.finished }
        ref j result).slotGet (oid, false) = some dj := by
    intro oid dj hdj hid
    have hne : ((oid, false) : JobRef) ≠ ref := by
      intro he
      rw [he, hj] at hdj
      injection hdj with hdj
      exact hid (by rw [hdj])
    rw [slotGet_jfiRemove_ne _ _ _ _ _ hne]
    exact hdj
  refine ⟨?_, ?_, ?_⟩
  · intro htype oid hmem dj hdj hid hdunit hdtype
    unfold jfi
    split
    · next heq => rw [hj] at heq; cases heq
    · next j' heq =>
      rw [hj] at heq; injection heq with heq; subst heq
      split
      · next hequ => rw [hu] at hequ; cases hequ
      · next u' hequ =>
        have huu : u = u' := Option.some.inj (hu.symm.trans hequ)
        subst huu
        rw [if_neg (fun hc => hres hc.1)]
        rw [finished_addJobsToRunQueue, finished_addJobsToRunQueue]
        unfold jfiPropagate
        rw [if_pos ⟨hres, rfl⟩, if_pos htype]
        have hM2' := hM2 oid dj hdj hid
        rcases List.mem_append.mp hmem with hmem1 | hmem1
        · have hhit := propagateDeps_hit f hf u.required_by _ false oid dj hmem1 hM2'
            hdunit hdtype (by intro h; cases h)
          exact (DepPresRel_propagateDeps f u.required_by_overridable _ true).1
            ((DepPresRel_propagateDeps f u.bound_by _ false).1 hhit)
        · rcases (DepPresRel_propagateDeps f u.required_by _ false).2 (oid, false) dj hM2'
            with ⟨dj', hdj', hcore⟩ | hmem'
          · have hhit := propagateDeps_hit f hf u.bound_by _ false oid dj' hmem1 hdj'
              (hcore.2.2.2.trans hdunit)
              (by rcases hdtype with h | h
                  · exact Or.inl (hcore.2.1.trans h)
                  · exact Or.inr (hcore.2.1.trans h))
              (by intro h; cases h)
            rw [hcore.1, hcore.2.1] at hhit
            exact (DepPresRel_propagateDeps f u.required_by_overridable _ true).1 hhit
          · exact (DepPresRel_propagateDeps f u.required_by_overridable _ true).1
              ((DepPresRel_propagateDeps f u.bound_by _ false).1 hmem')
  · intro htype oid hmem dj hdj hid hdunit hdtype hdov
    unfold jfi
    split
    · next heq => rw [hj] at heq; cases heq
    · next j' heq =>
      rw [hj] at heq; injection heq with heq; subst heq
      split
      · next hequ => rw [hu] at hequ; cases hequ
      · next u' hequ =>
        have huu : u = u' := Option.some.inj (hu.symm.trans hequ)
        subst huu
        rw [if_neg (fun hc => hres hc.1)]
        rw [finished_addJobsToRunQueue, finished_addJobsToRunQueue]
        unfold jfiPropagate
        rw [if_pos ⟨hres, rfl⟩, if_pos htype]
        have hM2' := hM2 oid dj hdj hid
        rcases (DepPresRel_trans (DepPresRel_propagateDeps f u.required_by _ false)
            (DepPresRel_propagateDeps f u.bound_by _ false)).2 (oid, false) dj hM2'
          with ⟨dj', hdj', hcore⟩ | hmem'
        · have hhit := propagateDeps_hit f hf u.required_by_overridable _ true oid dj' hmem hdj'
            (hcore.2.2.2.trans hdunit)
            (by rcases hdtype with h | h
                · exact Or.inl (hcore.2.1.trans h)
                · exact Or.inr (hcore.2.1.trans h))
            (fun _ => hcore.2.2.1.trans hdov)
          rw [hcore.1, hcore.2.1] at hhit
          exact hhit
        · exact (DepPresRel_propagateDeps f u.required_by_overridable _ true).1 hmem'
  · intro htype oid hmem dj hdj hid hdunit hdtype
    unfold jfi
    split
    · next heq => rw [hj] at heq; cases heq
    · next j' heq =>
      rw [hj] at heq; injection heq with heq; subst heq
      split
      · next hequ => rw [hu] at hequ; cases hequ
      · next u' hequ =>
        have huu : u = u' := Option.some.inj (hu.symm.trans hequ)
        subst huu
        rw [if_neg (fun hc => hres hc.1)]
        rw [finished_addJobsToRunQueue, finished_addJobsToRunQueue]
        unfold jfiPropagate
        rw [if_pos ⟨hres, rfl⟩,
            if_neg (by rw [htype]; rintro (h | h) <;> cases h),
            if_pos htype]
        exact propagateDeps_hit f hf u.conflicted_by _ false oid dj hmem
          (hM2 oid dj hdj hid) hdunit hdtype (by intro h; cases h)

theorem job_add_to_run_queue_mem (m : Manager) (ref : JobRef) (j : Job)
    (h : m.slotGet ref = some j) (hbit : j.in_run_queue = true → ref ∈ m.run_queue) :
    ref ∈ (job_add_to_run_queue m ref).run_queue := by
  unfold job_add_to_run_queue
  split
  · next heq => rw [h] at heq; cases heq
  · next j2 heq =>
    rw [h] at heq; injection heq with heq; subst heq
    split
    · next hb => exact hbit hb
    · exact List.mem_cons_self _ _

/-- C3: a `restart` job finished with result `done` is not uninstalled: it
survives in its slot with the same id, its type patched to `start`, its
state reset to `waiting`, and it is on the run queue; for every other
result/type combination the finished job's slot is empty afterwards (the
job is uninstalled and freed), so this is the only finish branch in which
the job survives — and since the surviving job's type is `start`, not
`restart`, the patch can fire at most once per restart. -/
theorem C3_restart_patching
    (fuel : Nat) (m : Manager) (ref : JobRef) (j : Job) (u : SdUnit)
    (recursive already : Bool)
    (hfuel : 1 ≤ fuel)
    (hj : m.slotGet ref = some j)
    (hu : m.getUnit j.unit = some u)
    (hrq : RQInv m) :
    (j.type = .restart →
      ∃ j', (jfi fuel m ref .done recursive already).slotGet ref = some j' ∧
        j'.id = j.id ∧ j'.type = .start ∧ j'.state = .waiting ∧ j'.in_run_queue = true ∧
        ref ∈ (jfi fuel m ref .done recursive already).run_queue) ∧
    (∀ result : JobResult, ¬ (result = .done ∧ j.type = .restart) →
      (jfi fuel m ref result recursive already).slotGet ref = none) := by
  obtain ⟨f, rfl⟩ : ∃ f, fuel = f + 1 := ⟨fuel - 1, by omega⟩
  constructor
  · intro htype
    unfold jfi
    split
    · next heq => rw [hj] at heq; cases heq
    · next j' heq =>
      rw [hj] at heq; injection heq with heq; subst heq
      split
      · next hequ => rw [hu] at hequ; cases hequ
      · next u' hequ =>
        have huu : u = u' := Option.some.inj (hu.symm.trans hequ)
        subst huu
        rw [if_pos ⟨rfl, htype⟩]
        have hM1 : (Manager.slotGet
            { m with finished := (j.id, j.type, JobResult.done) :: m.finished } ref) =
            some j := hj
        have hX : (Manager.slotGet (job_set_state
            ((Manager.slotModify
              { m with finished := (j.id, j.type, JobResult.done) :: m.finished })
              ref fun x => { x with type := .start }) ref .waiting) ref) =
            some { j with type := .start, state := .waiting } := by
          rw [slotGet_job_set_state, slotGet_slotModify_self, hM1]
          rfl
        have hXq : (Manager.run_queue (job_set_state
            ((Manager.slotModify
              { m with finished := (j.id, j.type, JobResult.done) :: m.finished })
              ref fun x => { x with type := .start }) ref .waiting)) = m.run_queue := by
          rw [run_queue_job_set_state]
          rfl
        have hslot1 : (jfiPatch
            { m with finished := (j.id, j.type, JobResult.done) :: m.finished } ref).slotGet
              ref =
            some { j with type := .start, state := .waiting, in_run_queue := true } := by
          rw [slotGet_jfiPatch_self, hM1]
          rfl
        have hmem1 : ref ∈ (jfiPatch
            { m with finished := (j.id, j.type, JobResult.done) :: m.finished } ref).run_queue := by
          unfold jfiPatch
          apply job_add_to_run_queue_mem _ ref { j with type := .start, state := .waiting } hX
          intro hb
          rw [hXq]
          exact (hrq.2.2 ref j hj).mp hb
        refine ⟨{ j with type := .start, state := .waiting, in_run_queue := true }, ?_, rfl, rfl,
          rfl, rfl, ?_⟩
        · rcases slotGet_addJobsToRunQueue _ u.after ref _ hslot1 with h2 | h2 <;>
            rcases slotGet_addJobsToRunQueue _ u.before ref _ h2 with h3 | h3 <;>
            exact h3
        · exact mem_run_queue_addJobsToRunQueue _ _ _
            (mem_run_queue_addJobsToRunQueue _ _ _ hmem1)
  · intro result hcond
    unfold jfi
    split
    · next heq => rw [hj] at heq; cases heq
    · next j' heq =>
      rw [hj] at heq; injection heq with heq; subst heq
      split
      · next hequ => rw [hu] at hequ; cases hequ
      · next u' hequ =>
        have huu : u = u' := Option.some.inj (hu.symm.trans hequ)
        subst huu
        rw [if_neg hcond]
        apply slotGet_addJobsToRunQueue_none
        apply slotGet_addJobsToRunQueue_none
        have hM2 : (jfiRemove { m with finished := (j.id, j.type, result) :: m.finished }
            ref j result).slotGet ref = none :=
          slotGet_jfiRemove_self _ _ _ j _ hj
        exact jfiPropagate_rel
          (R := fun a b => ∀ r, a.slotGet r = none → b.slotGet r = none)
          (fun _ _ h => h) (fun h1 h2 r h => h2 r (h1 r h))
          (fun m' r' rr h => jfi_slot_none f m' r' .dependency true false rr h)
          _ _ _ _ _ ref hM2

/-- `n_failed_jobs` changes only on `failed`/`invalid` finishes; cascaded
finishes use result `dependency` and never touch it. -/
theorem jfi_n_failed :
    ∀ (fuel : Nat) (m : Manager) (ref : JobRef) (result : JobResult)
      (recursive already : Bool),
      ¬ (result = .failed ∨ result = .invalid) →
      (jfi fuel m ref result recursive already).n_failed_jobs = m.n_failed_jobs := by
  intro fuel
  induction fuel with
  | zero => intro m ref result recursive already hres; rfl
  | succ fuel ih =>
    intro m ref result recursive already hres
    unfold jfi
    split
    · rfl
    · next j heq =>
      split
      · rfl
      · next u hequ =>
        split
        · rw [n_failed_addJobsToRunQueue, n_failed_addJobsToRunQueue, n_failed_jfiPatch]
        · rw [n_failed_addJobsToRunQueue, n_failed_addJobsToRunQueue]
          have h1 := jfiPropagate_rel
            (R := fun a b => b.n_failed_jobs = a.n_failed_jobs)
            (fun _ => rfl) (fun h1 h2 => h2.trans h1)
            (fun m' r' => ih m' r' .dependency true false (by rintro (h | h) <;> cases h))
            (jfiRemove { m with finished := (j.id, j.type, result) :: m.finished }
              ref j result)
            u j.type result recursive
          rw [h1, n_failed_jfiRemove _ _ _ _ hres]

/-- C8 counterexample: in the spec's timeout scenario (running `start` job
on unit 1=F, `required_by` unit 2=G with a waiting `start` job), the timer
firing finishes F with `timeout` and G's job with `dependency`, but
`n_failed_jobs` is not incremented — it ends at 0, not 1: the code counts
only `failed`/`invalid` results (`job.c` lines 863–864). -/
theorem C8_counterexample :
    (1, JobType.start, JobResult.timeout) ∈
      (job_dispatch_timer mgrTimeout (1, false)).finished ∧
    (2, JobType.start, JobResult.dependency) ∈
      (job_dispatch_timer mgrTimeout (1, false)).finished ∧
    (job_dispatch_timer mgrTimeout (1, false)).n_failed_jobs ≠ 1 := by decide

/-- C8 (amended): when a job's timer fires, the job finishes with result
`timeout` and its dependents are recursively failed with `dependency`, but
`n_failed_jobs` is *not* incremented for either: the counter counts only
`failed` and `invalid` results, so in the spec's scenario it stays 0. -/
theorem C8_timeout_not_counted_failed :
    (∀ (fuel : Nat) (m : Manager) (ref : JobRef) (result : JobResult)
        (recursive already : Bool),
      ¬ (result = .failed ∨ result = .invalid) →
      (jfi fuel m ref result recursive already).n_failed_jobs = m.n_failed_jobs) ∧
    ((1, JobType.start, JobResult.timeout) ∈
        (job_dispatch_timer mgrTimeout (1, false)).finished ∧
      (2, JobType.start, JobResult.dependency) ∈
        (job_dispatch_timer mgrTimeout (1, false)).finished ∧
      (job_dispatch_timer mgrTimeout (1, false)).n_failed_jobs = 0) :=
  ⟨fun fuel m ref result recursive already hres =>
      jfi_n_failed fuel m ref result recursive already hres,
   by decide⟩

/-- C8 witness: the general part of `C8_timeout_not_counted_failed`
instantiated on the concrete timeout scenario. -/
theorem C8_timeout_not_counted_failed_witness :
    ¬ (JobResult.timeout = .failed ∨ JobResult.timeout = .invalid) ∧
    (jfi 3 mgrTimeout (1, false) .timeout true false).n_failed_jobs =
      mgrTimeout.n_failed_jobs :=
  ⟨by decide,
   C8_timeout_not_counted_failed.1 3 mgrTimeout (1, false) .timeout true false (by decide)⟩

/-- C6: on the merge domain `{start, verify-active, stop, reload,
restart}` the merge operation is commutative, merging two equal types
yields that type, and merge-followed-by-collapse is associative for any
fixed unit activation state — stated as equality of the two bracketed
`Option`-valued compositions, so the two sides are defined (mergeable) in
exactly the same cases and equal whenever defined. -/
theorem C6_merge_algebra :
    (∀ a b : JobType, a.isMerging = true → b.isMerging = true →
      job_type_lookup_merge a b = job_type_lookup_merge b a) ∧
    (∀ a : JobType, a.isMerging = true → job_type_lookup_merge a a = some a) ∧
    (∀ (s : UnitActiveState) (a b c : JobType),
      a.isMerging = true → b.isMerging = true → c.isMerging = true →
      (job_type_merge_and_collapse a b s).bind
          (fun x => job_type_merge_and_collapse x c s) =
        (job_type_merge_and_collapse b c s).bind
          (fun y => job_type_merge_and_collapse a y s)) := by
  refine ⟨by decide, by decide, by decide⟩

/-- C6 witness: the algebra laws at concrete inputs — `start` and `reload`
merge commutatively (both give `reload-or-start`), `stop` merged with
itself is `stop`, and a merge-then-collapse association of
`start`, `reload`, `verify-active` on an active unit. -/
theorem C6_merge_algebra_witness :
    job_type_lookup_merge .start .reload = job_type_lookup_merge .reload .start ∧
    job_type_lookup_merge .stop .stop = some .stop ∧
    (job_type_merge_and_collapse .start .reload .active).bind
        (fun x => job_type_merge_and_collapse x .verify_active .active) =
      (job_type_merge_and_collapse .reload .verify_active .active).bind
        (fun y => job_type_merge_and_collapse .start y .active) :=
  ⟨C6_merge_algebra.1 .start .reload (by decide) (by decide),
   C6_merge_algebra.2.1 .stop (by decide),
   C6_merge_algebra.2.2 .active .start .reload .verify_active
     (by decide) (by decide) (by decide)⟩

/-- C1: `job_is_runnable` returns true exactly under the specification's
condition (`RunnableSpec`): `ignore_order` set, or type `nop`, or both
(a) if the type is positive (`start`/`verify-active`/`reload`) then no
unit in the `after` set has an installed job, and (b) no unit in the
`before` set has an installed job of type `stop` or `restart`. -/
theorem C1_runnability :
    ∀ (m : Manager) (u : SdUnit) (j : Job),
      job_is_runnable m u j = true ↔ RunnableSpec m u j := by
  intro m u j
  unfold job_is_runnable RunnableSpec
  by_cases h1 : j.ignore_order
  · simp [h1]
  · simp only [h1, if_false, Bool.false_eq_true, false_or]
    by_cases h2 : j.type = .nop
    · simp [h2]
    · simp only [h2, if_false, false_or]
      rw [Bool.and_eq_true]
      constructor
      · rintro ⟨ha, hb⟩
        refine ⟨?_, ?_⟩
        · intro hpos oid hmem
          rw [if_pos hpos] at ha
          have := (List.all_eq_true.mp ha) oid hmem
          cases hoj : (m.getUnit oid).bind SdUnit.job with
          | none => rfl
          | some oj => rw [hoj] at this; simp at this
        · intro oid hmem oj hoj
          have := (List.all_eq_true.mp hb) oid hmem
          rw [hoj] at this
          simp only [Bool.not_eq_true'] at this
          constructor
          · intro hc; rw [hc] at this; simp at this
          · intro hc; rw [hc] at this; simp at this
      · rintro ⟨ha, hb⟩
        constructor
        · split
          · next hpos =>
            apply List.all_eq_true.mpr
            intro oid hmem
            rw [ha hpos oid hmem]
            rfl
          · rfl
        · apply List.all_eq_true.mpr
          intro oid hmem
          cases hoj : (m.getUnit oid).bind SdUnit.job with
          | none => rfl
          | some oj =>
            have := hb oid hmem oj hoj
            simp [this.1, this.2]

/-- C4: if the incumbent job in the slot the new job targets is
`irreversible` and the new job's type conflicts with the incumbent's, the
installation entry fails with the destructive-transaction error and, since
no state is produced or mutated, the incumbent is still installed
unchanged. -/
theorem C4_irreversible_incumbent
    (m : Manager) (j uj : Job)
    (h : m.slotGet (jobRefOfJob j) = some uj)
    (hirr : uj.irreversible = true)
    (hc : job_type_is_conflicting uj.type j.type = true) :
    manager_install_job m j = .error "transaction-is-destructive" ∧
    m.slotGet (jobRefOfJob j) = some uj := by
  refine ⟨?_, h⟩
  unfold manager_install_job
  split
  · next uj' heq =>
    rw [h] at heq
    injection heq with heq
    subst heq
    rw [if_pos ⟨hirr, hc⟩]
  · next heq => rw [h] at heq; cases heq

/-- C4 witness: a `stop` job against the irreversible running `start` job
of `mgrIrreversible` is refused and the incumbent survives. -/
theorem C4_irreversible_incumbent_witness :
    manager_install_job mgrIrreversible (mkJob 2 0 .stop) =
      .error "transaction-is-destructive" ∧
    mgrIrreversible.slotGet (jobRefOfJob (mkJob 2 0 .stop)) =
      some { mkJob 1 0 .start with
               installed := true
               irreversible := true
               state := .running } :=
  C4_irreversible_incumbent mgrIrreversible (mkJob 2 0 .stop)
    { mkJob 1 0 .start with installed := true, irreversible := true, state := .running }
    (by decide) (by decide) (by decide)

/-- C2 witness: in `mgrDeps`, failing unit 0's running `start` job
propagates `dependency` finishes to the jobs of its `required_by`,
`bound_by` and `required_by_overridable` units; in `mgrConflict`, failing
unit 0's `stop` job propagates to its `conflicted_by` unit. -/
theorem C2_dependency_propagation_witness :
    (2, JobType.start, JobResult.dependency) ∈
      (jfi 5 mgrDeps (0, false) .failed true false).finished ∧
    (3, JobType.verify_active, JobResult.dependency) ∈
      (jfi 5 mgrDeps (0, false) .failed true false).finished ∧
    (4, JobType.start, JobResult.dependency) ∈
      (jfi 5 mgrDeps (0, false) .failed true false).finished ∧
    (2, JobType.start, JobResult.dependency) ∈
      (jfi 5 mgrConflict (0, false) .failed true false).finished := by
  have h1 := C2_dependency_propagation 5 mgrDeps (0, false)
    { mkJob 1 0 .start with installed := true, state := .running }
    { mkUnit 0 with
        required_by := [1]
        bound_by := [2]
        required_by_overridable := [3]
        job := some { mkJob 1 0 .start with installed := true, state := .running } }
    .failed false (by decide) (by decide) (by decide) (by decide)
  have h2 := C2_dependency_propagation 5 mgrConflict (0, false)
    { mkJob 1 0 .stop with installed := true, state := .running }
    { mkUnit 0 with
        conflicted_by := [1]
        job := some { mkJob 1 0 .stop with installed := true, state := .running } }
    .failed false (by decide) (by decide) (by decide) (by decide)
  refine ⟨?_, ?_, ?_, ?_⟩
  · exact h1.1 (Or.inl rfl) 1 (by decide) { mkJob 2 1 .start with installed := true }
      (by decide) (by decide) (by decide) (Or.inl rfl)
  · exact h1.1 (Or.inl rfl) 2 (by decide)
      { mkJob 3 2 .verify_active with installed := true }
      (by decide) (by decide) (by decide) (Or.inr rfl)
  · exact h1.2.1 (Or.inl rfl) 3 (by decide) { mkJob 4 3 .start with installed := true }
      (by decide) (by decide) (by decide) (Or.inl rfl) (by decide)
  · exact h2.2.2 rfl 1 (by decide) { mkJob 2 1 .start with installed := true }
      (by decide) (by decide) (by decide) (Or.inl rfl)

theorem slotGet_cases (m : Manager) (ref : JobRef) (j : Job) (h : m.slotGet ref = some j) :
    ∃ u ∈ m.units, u.id = ref.1 ∧
      ((ref.2 = true ∧ u.nop_job = some j) ∨ (ref.2 = false ∧ u.job = some j)) := by
  unfold Manager.slotGet Manager.getUnit at h
  cases hg : m.units.find? (fun u => u.id = ref.1) with
  | none => rw [hg] at h; cases h
  | some u =>
    rw [hg] at h
    refine ⟨u, List.mem_of_find?_eq_some hg, by simpa using List.find?_some hg, ?_⟩
    cases hb : ref.2
    · rw [hb] at h
      exact Or.inr ⟨rfl, by simpa using h⟩
    · rw [hb] at h
      exact Or.inl ⟨rfl, by simpa using h⟩

theorem RQInv_mgrRestart : RQInv mgrRestart := by
  refine ⟨List.nodup_nil, ?_, ?_⟩
  · intro ref hmem; cases hmem
  · intro ref j h
    rcases slotGet_cases _ _ _ h with ⟨u, hu, hid, hcase⟩
    have hu' : u = { mkUnit 0 with
        active_state := .active
        job := some { mkJob 1 0 .restart with installed := true, state := .running } } := by
      simpa [mgrRestart] using hu
    subst hu'
    rcases hcase with ⟨_, hj⟩ | ⟨_, hj⟩
    · cases hj
    · have : j = { mkJob 1 0 .restart with installed := true, state := .running } := by
        injection hj with hj; exact hj.symm
      subst this
      constructor
      · intro hb; cases hb
      · intro hb; cases hb

/-- C3 witness: finishing `mgrRestart`'s running `restart` job with `done`
leaves a waiting `start` job with the same id (1) in the slot, queued;
finishing it with `failed` instead empties the slot. -/
theorem C3_restart_patching_witness :
    (∃ j', (jfi 5 mgrRestart (0, false) .done true false).slotGet (0, false) = some j' ∧
      j'.id = 1 ∧ j'.type = .start ∧ j'.state = .waiting ∧ j'.in_run_queue = true ∧
      (0, false) ∈ (jfi 5 mgrRestart (0, false) .done true false).run_queue) ∧
    (jfi 5 mgrRestart (0, false) .failed true false).slotGet (0, false) = none := by
  have h := C3_restart_patching 5 mgrRestart (0, false)
    { mkJob 1 0 .restart with installed := true, state := .running }
    { mkUnit 0 with
        active_state := .active
        job := some { mkJob 1 0 .restart with installed := true, state := .running } }
    true false (by decide) (by decide) (by decide) RQInv_mgrRestart
  refine ⟨?_, h.2 .failed (by decide)⟩
  obtain ⟨j', hj', hid, hty, hst, hbit, hq⟩ := h.1 rfl
  exact ⟨j', hj', hid, hty, hst, hbit, hq⟩

/-!
## Serialization round-trip
-/

theorem natDigitsRev_lt : ∀ (n : Nat), ∀ d ∈ natDigitsRev n, d < 10 := by
  intro n
  induction n using Nat.strong_induction_on with
  | _ n ih =>
    match n with
    | 0 => intro d hd; rw [natDigitsRev] at hd; cases hd
    | k + 1 =>
      intro d hd
      rw [natDigitsRev] at hd
      rcases List.mem_cons.mp hd with h | h
      · rw [h]; exact Nat.mod_lt _ (by norm_num)
      · exact ih ((k + 1) / 10) (Nat.div_lt_self (Nat.succ_pos k) (by norm_num)) d h

theorem natDigitsRev_val :
    ∀ n : Nat, (natDigitsRev n).foldr (fun d acc => acc * 10 + d) 0 = n := by
  intro n
  induction n using Nat.strong_induction_on with
  | _ n ih =>
    match n with
    | 0 => rw [natDigitsRev]; rfl
    | k + 1 =>
      rw [natDigitsRev, List.foldr_cons,
          ih ((k + 1) / 10) (Nat.div_lt_self (Nat.succ_pos k) (by norm_num))]
      omega

theorem parseDigit_digitChar : ∀ d, d < 10 → parseDigit (Char.ofNat (48 + d)) = some d := by
  decide

theorem parseNatAux_digits :
    ∀ (l : List Nat) (acc : Nat), (∀ d ∈ l, d < 10) →
      parseNatAux (l.map fun d => Char.ofNat (48 + d)) acc =
        some (l.foldl (fun a d => a * 10 + d) acc) := by
  intro l
  induction l with
  | nil => intro acc h; rfl
  | cons d rest ih =>
    intro acc h
    rw [List.map_cons, List.foldl_cons]
    show (match parseDigit (Char.ofNat (48 + d)) with
      | some d => parseNatAux (rest.map fun d => Char.ofNat (48 + d)) (acc * 10 + d)
      | none => none) = _
    rw [parseDigit_digitChar d (h d (List.mem_cons_self d rest))]
    exact ih (acc * 10 + d) (fun x hx => h x (List.mem_cons_of_mem d hx))

theorem parseNat_renderNat : ∀ n : Nat, parseNat (renderNat n) = some n := by
  intro n
  by_cases h0 : n = 0
  · subst h0; rfl
  · unfold renderNat
    rw [if_neg h0]
    unfold parseNat
    have hne : (natDigitsRev n).reverse.map (fun d => Char.ofNat (48 + d)) ≠ [] := by
      intro hl
      have : natDigitsRev n = [] := by
        have := List.map_eq_nil_iff.mp hl
        simpa using List.reverse_eq_nil_iff.mp this
      match n, h0 with
      | k + 1, _ => rw [natDigitsRev] at this; cases this
    cases hl : (natDigitsRev n).reverse.map (fun d => Char.ofNat (48 + d)) with
    | nil => exact absurd hl hne
    | cons c cs =>
      show parseNatAux (String.mk (c :: cs)).data 0 = some n
      show parseNatAux (c :: cs) 0 = some n
      rw [← hl]
      rw [parseNatAux_digits _ 0 (fun d hd => natDigitsRev_lt n d (List.mem_reverse.mp hd))]
      rw [List.foldl_reverse]
      rw [natDigitsRev_val n]

theorem safe_atou32_renderNat (n : Nat) (h : n < 2 ^ 32) :
    safe_atou32 (renderNat n) = some n := by
  unfold safe_atou32
  rw [parseNat_renderNat]
  have h' : n < 4294967296 := by norm_num at h; exact h
  simp [h']

theorem parse_usec_renderNat (n : Nat) (h : n < 2 ^ 64) :
    parse_usec (renderNat n) = some n := by
  unfold parse_usec
  rw [parseNat_renderNat]
  have h' : n < 18446744073709551616 := by norm_num at h; exact h
  simp [h']

theorem parse_boolean_yes_no (b : Bool) : parse_boolean (yes_no b) = some b := by
  cases b <;> rfl

theorem job_type_from_to (t : JobType) (h : t.inTransaction = true) :
    job_type_from_string (job_type_to_string t) = some t := by
  cases t <;> revert h <;> decide

theorem job_state_from_to (s : JobState) :
    job_state_from_string (job_state_to_string s) = some s := by
  cases s <;> rfl

/-- Folding `subscribed=` lines appends the clients in order and changes
nothing else. -/
theorem job_deserialize_subscribed :
    ∀ (cs : List String) (j0 : Job),
      job_deserialize j0 (cs.map fun c => ("subscribed", c)) =
        { j0 with deserialized_clients := j0.deserialized_clients ++ cs } := by
  intro cs
  induction cs with
  | nil => intro j0; show j0 = _; cases j0; simp
  | cons c rest ih =>
    intro j0
    show job_deserialize (job_deserialize_line j0 "subscribed" c) _ = _
    have hline : job_deserialize_line j0 "subscribed" c =
        { j0 with deserialized_clients := j0.deserialized_clients ++ [c] } := by
      unfold job_deserialize_line
      simp
    rw [hline, ih]
    simp

theorem job_deserialize_append (j0 : Job) (l1 l2 : List (String × String)) :
    job_deserialize j0 (l1 ++ l2) = job_deserialize (job_deserialize j0 l1) l2 := by
  unfold job_deserialize
  rw [List.foldl_append]

/-- C9: serializing an installed job (transaction-range type, 32-bit id,
64-bit begin time) and deserializing the stream into a fresh job
reproduces every serialized field exactly: id, type, state, the
`override`, `irreversible`, `sent_dbus_new_signal` and `ignore_order`
flags, `begin_usec`, and the subscriber set (which deserialization
collects in `deserialized_clients` for `job_coldplug` to re-subscribe). -/
theorem C9_serialize_roundtrip (uid : UnitId) (j : Job)
    (hid : j.id < 2 ^ 32) (hbegin : j.begin_usec < 2 ^ 64)
    (htype : j.type.inTransaction = true) :
    (job_roundtrip uid j).id = j.id ∧
    (job_roundtrip uid j).type = j.type ∧
    (job_roundtrip uid j).state = j.state ∧
    (job_roundtrip uid j).override = j.override ∧
    (job_roundtrip uid j).irreversible = j.irreversible ∧
    (job_roundtrip uid j).sent_dbus_new_signal = j.sent_dbus_new_signal ∧
    (job_roundtrip uid j).ignore_order = j.ignore_order ∧
    (job_roundtrip uid j).begin_usec = j.begin_usec ∧
    (job_roundtrip uid j).deserialized_clients = j.clients := by
  unfold job_roundtrip job_serialize
  rw [job_deserialize_append, job_deserialize_append]
  have h7 : job_deserialize (job_new_raw uid)
      [("job-id", renderNat j.id),
       ("job-type", job_type_to_string j.type),
       ("job-state", job_state_to_string j.state),
       ("job-override", yes_no j.override),
       ("job-irreversible", yes_no j.irreversible),
       ("job-sent-dbus-new-signal", yes_no j.sent_dbus_new_signal),
       ("job-ignore-order", yes_no j.ignore_order)] =
      { job_new_raw uid with
          id := j.id
          type := j.type
          state := j.state
          override := j.override
          irreversible := j.irreversible
          sent_dbus_new_signal := j.sent_dbus_new_signal
          ignore_order := j.ignore_order } := by
    simp [job_deserialize, job_deserialize_line, job_new_raw,
      safe_atou32_renderNat j.id hid, job_type_from_to j.type htype, htype,
      job_state_from_to j.state, parse_boolean_yes_no]
  rw [h7]
  by_cases hb : j.begin_usec > 0
  · rw [if_pos hb]
    have hb1 : job_deserialize
        { job_new_raw uid with
            id := j.id
            type := j.type
            state := j.state
            override := j.override
            irreversible := j.irreversible
            sent_dbus_new_signal := j.sent_dbus_new_signal
            ignore_order := j.ignore_order }
        [("job-begin", renderNat j.begin_usec)] =
        { job_new_raw uid with
            id := j.id
            type := j.type
            state := j.state
            override := j.override
            irreversible := j.irreversible
            sent_dbus_new_signal := j.sent_dbus_new_signal
            ignore_order := j.ignore_order
            begin_usec := j.begin_usec } := by
      simp [job_deserialize, job_deserialize_line, parse_usec_renderNat _ hbegin]
    rw [hb1, job_deserialize_subscribed]
    simp [job_new_raw]
  · rw [if_neg hb]
    have hb0 : j.begin_usec = 0 := by omega
    rw [show job_deserialize
        { job_new_raw uid with
            id := j.id
            type := j.type
            state := j.state
            override := j.override
            irreversible := j.irreversible
            sent_dbus_new_signal := j.sent_dbus_new_signal
            ignore_order := j.ignore_order } [] =
        { job_new_raw uid with
            id := j.id
            type := j.type
            state := j.state
            override := j.override
            irreversible := j.irreversible
            sent_dbus_new_signal := j.sent_dbus_new_signal
            ignore_order := j.ignore_order } from rfl,
      job_deserialize_subscribed]
    simp [job_new_raw, hb0]

/-- C9 witness: the round-trip on a fully featured concrete job. -/
theorem C9_serialize_roundtrip_witness :
    (job_roundtrip 0 jobSerial).id = jobSerial.id ∧
    (job_roundtrip 0 jobSerial).type = jobSerial.type ∧
    (job_roundtrip 0 jobSerial).state = jobSerial.state ∧
    (job_roundtrip 0 jobSerial).override = jobSerial.override ∧
    (job_roundtrip 0 jobSerial).irreversible = jobSerial.irreversible ∧
    (job_roundtrip 0 jobSerial).sent_dbus_new_signal = jobSerial.sent_dbus_new_signal ∧
    (job_roundtrip 0 jobSerial).ignore_order = jobSerial.ignore_order ∧
    (job_roundtrip 0 jobSerial).begin_usec = jobSerial.begin_usec ∧
    (job_roundtrip 0 jobSerial).deserialized_clients = jobSerial.clients :=
  C9_serialize_roundtrip 0 jobSerial (by decide) (by decide) (by decide)

/-!
## Dispatch support lemmas
-/

theorem job_is_runnable_congr_unit (m : Manager) (u u' : SdUnit) (j : Job)
    (ha : u'.after = u.after) (hb : u'.before = u.before) :
    job_is_runnable m u' j = job_is_runnable m u j := by
  unfold job_is_runnable
  rw [ha, hb]

theorem job_is_runnable_set_queue (m : Manager) (q : List JobRef) (u : SdUnit) (j : Job) :
    job_is_runnable { m with run_queue := q } u j = job_is_runnable m u j := rfl

theorem getUnit_job_slotModify (m : Manager) (ref : JobRef) (f : Job → Job)
    (_hfid : ∀ x, (f x).id = x.id) (hfty : ∀ x, (f x).type = x.type) (oid : UnitId) :
    (((m.slotModify ref f).getUnit oid).bind SdUnit.job).map Job.type =
      ((m.getUnit oid).bind SdUnit.job).map Job.type := by
  unfold Manager.slotModify
  rw [getUnit_updateUnit _ _ _ (fun u => by by_cases h : ref.2 <;> simp [h]) _]
  by_cases h1 : oid = ref.1
  · rw [if_pos h1]
    cases m.getUnit oid with
    | none => rfl
    | some u =>
      by_cases hb : ref.2
      · simp [hb]
      · cases hj : u.job <;> simp [hb, hj, hfty]
  · rw [if_neg h1]

theorem job_is_runnable_slotModify (m : Manager) (ref : JobRef) (f : Job → Job)
    (hfid : ∀ x, (f x).id = x.id) (hfty : ∀ x, (f x).type = x.type)
    (u : SdUnit) (j : Job) :
    job_is_runnable (m.slotModify ref f) u j = job_is_runnable m u j := by
  have hty := getUnit_job_slotModify m ref f hfid hfty
  have hsome : ∀ oid, (((m.slotModify ref f).getUnit oid).bind SdUnit.job).isSome =
      ((m.getUnit oid).bind SdUnit.job).isSome := by
    intro oid
    have := hty oid
    cases h1 : ((m.slotModify ref f).getUnit oid).bind SdUnit.job <;>
      cases h2 : (m.getUnit oid).bind SdUnit.job <;> rw [h1, h2] at this <;> simp_all
  unfold job_is_runnable
  have hfa : (fun oid => !(((m.slotModify ref f).getUnit oid).bind SdUnit.job).isSome) =
      (fun oid => !((m.getUnit oid).bind SdUnit.job).isSome) := by
    funext oid; rw [hsome]
  have hfb : (fun oid =>
        match ((m.slotModify ref f).getUnit oid).bind SdUnit.job with
        | some oj => !(oj.type = JobType.stop || oj.type = JobType.restart)
        | none => true) =
      (fun oid =>
        match (m.getUnit oid).bind SdUnit.job with
        | some oj => !(oj.type = JobType.stop || oj.type = JobType.restart)
        | none => true) := by
    funext oid
    have := hty oid
    cases h1 : ((m.slotModify ref f).getUnit oid).bind SdUnit.job <;>
      cases h2 : (m.getUnit oid).bind SdUnit.job <;> rw [h1, h2] at this <;> simp_all
  rw [hfa, hfb]

theorem UniqueIds_set_queue (m : Manager) (q : List JobRef) :
    UniqueIds { m with run_queue := q } ↔ UniqueIds m := Iff.rfl

theorem UniqueIds_updateUnit (m : Manager) (uid : UnitId) (g : SdUnit → SdUnit)
    (hgid : ∀ u, (g u).id = u.id)
    (hgjobs : ∀ u, ((g u).job.toList ++ (g u).nop_job.toList).map Job.id =
      (u.job.toList ++ u.nop_job.toList).map Job.id) :
    UniqueIds (m.updateUnit uid g) ↔ UniqueIds m := by
  have h1 : ((m.units.map fun u => if u.id = uid then g u else u).map SdUnit.id) =
      m.units.map SdUnit.id := by
    rw [List.map_map]
    apply List.map_congr_left
    intro u _
    by_cases h : u.id = uid <;> simp [h, hgid]
  have h2 : ((m.units.map fun u => if u.id = uid then g u else u).map fun u =>
        (u.job.toList ++ u.nop_job.toList).map Job.id) =
      m.units.map fun u => (u.job.toList ++ u.nop_job.toList).map Job.id := by
    rw [List.map_map]
    apply List.map_congr_left
    intro u _
    by_cases h : u.id = uid
    · have hj := hgjobs u
      rw [List.map_append, List.map_append] at hj
      simp [h, hj]
    · simp [h]
  unfold UniqueIds Manager.updateUnit
  show ((m.units.map fun u => if u.id = uid then g u else u).map SdUnit.id).Nodup ∧
      (((m.units.map fun u => if u.id = uid then g u else u).map fun u =>
        (u.job.toList ++ u.nop_job.toList).map Job.id).flatten).Nodup ↔ _
  rw [h1, h2]

theorem UniqueIds_slotModify (m : Manager) (ref : JobRef) (f : Job → Job)
    (hfid : ∀ x, (f x).id = x.id) :
    UniqueIds (m.slotModify ref f) ↔ UniqueIds m := by
  unfold Manager.slotModify
  apply UniqueIds_updateUnit
  · intro u
    by_cases hb : ref.2 <;> simp [hb]
  · intro u
    by_cases hb : ref.2 <;> cases u.job <;> cases u.nop_job <;> simp [hb, hfid]

theorem UniqueIds_job_set_state (m : Manager) (ref : JobRef) (s : JobState) :
    UniqueIds (job_set_state m ref s) ↔ UniqueIds m := by
  unfold job_set_state
  split
  · exact Iff.rfl
  · split
    · exact Iff.rfl
    · split
      · exact UniqueIds_slotModify m ref _ (fun x => rfl)
      · split <;> exact UniqueIds_slotModify m ref _ (fun x => rfl)

/-- With unique ids, the id index finds exactly the slot a job occupies. -/
theorem manager_get_job_eq (m : Manager) (ref : JobRef) (j : Job)
    (huniq : UniqueIds m) (h : m.slotGet ref = some j) :
    manager_get_job m j.id = some ref := by
  unfold Manager.slotGet Manager.getUnit at h
  unfold manager_get_job
  have key : ∀ l : List SdUnit,
      ((l.map fun u => (u.job.toList ++ u.nop_job.toList).map Job.id).flatten).Nodup →
      ∀ u : SdUnit, l.find? (fun u => u.id = ref.1) = some u →
      (if ref.2 then u.nop_job else u.job) = some j →
      l.findSome? (fun u => unitFindJob u j.id) = some (u.id, ref.2) := by
    intro l
    induction l with
    | nil => intro _ u hu; cases hu
    | cons u0 tl ih =>
      intro hn u hu hslot
      rw [List.map_cons, List.flatten_cons] at hn
      obtain ⟨h0, htl, hdisj⟩ := List.nodup_append.mp hn
      by_cases hp : u0.id = ref.1
      · rw [List.find?_cons_of_pos _ (by simp [hp])] at hu
        injection hu with hu
        subst hu
        have hhead : unitFindJob u0 j.id = some (u0.id, ref.2) := by
          cases hb : ref.2
          · rw [hb] at hslot
            simp at hslot
            unfold unitFindJob
            simp [hslot]
          · rw [hb] at hslot
            simp at hslot
            unfold unitFindJob
            cases hj0 : u0.job with
            | none => simp [hslot]
            | some jx =>
              have hne : ¬ jx.id = j.id := by
                rw [hj0, hslot] at h0
                simp at h0
                exact h0
              simp [hslot, hne]
        rw [List.findSome?_cons, hhead]
      · rw [List.find?_cons_of_neg _ (by simp [hp])] at hu
        have humem : u ∈ tl := List.mem_of_find?_eq_some hu
        have hjmem : j.id ∈ ((tl.map fun u =>
            (u.job.toList ++ u.nop_job.toList).map Job.id).flatten) := by
          rw [List.mem_flatten]
          refine ⟨(u.job.toList ++ u.nop_job.toList).map Job.id, List.mem_map_of_mem _ humem, ?_⟩
          cases hb : ref.2
          · rw [hb] at hslot
            simp at hslot
            simp [hslot]
          · rw [hb] at hslot
            simp at hslot
            simp [hslot]
        have hhead : unitFindJob u0 j.id = none := by
          have hne : ∀ jx : Job, jx.id ∈ ((u0.job.toList ++ u0.nop_job.toList).map Job.id) →
              ¬ jx.id = j.id := by
            intro jx hjx heq
            rw [heq] at hjx
            exact hdisj hjx hjmem
          unfold unitFindJob
          cases hj0 : u0.job with
          | none =>
            cases hn0 : u0.nop_job with
            | none => simp
            | some jy => simp [hne jy (by simp [hj0, hn0])]
          | some jx =>
            cases hn0 : u0.nop_job with
            | none => simp [hne jx (by simp [hj0])]
            | some jy => simp [hne jx (by simp [hj0]), hne jy (by simp [hj0, hn0])]
        rw [List.findSome?_cons, hhead]
        exact ih htl u hu hslot
  cases hg : m.units.find? (fun u => u.id = ref.1) with
  | none => rw [hg] at h; cases h
  | some u =>
    rw [hg] at h
    simp only [Option.some_bind] at h
    have := key m.units huniq.2 u hg h
    rw [this]
    have : u.id = ref.1 := by simpa using List.find?_some hg
    rw [this]

theorem getUnit_job_run_dequeue (m : Manager) (ref : JobRef) (uid : UnitId) :
    (job_run_dequeue m ref).getUnit uid =
      (m.slotModify ref fun x => { x with in_run_queue := false }).getUnit uid := rfl

theorem finished_job_run_dequeue (m : Manager) (ref : JobRef) :
    (job_run_dequeue m ref).finished = m.finished := rfl

theorem slotGet_job_run_dequeue_self (m : Manager) (ref : JobRef) :
    (job_run_dequeue m ref).slotGet ref =
      (m.slotGet ref).map fun x => { x with in_run_queue := false } := by
  unfold job_run_dequeue
  rw [slotGet_set_queue, slotGet_slotModify_self]

theorem UniqueIds_job_run_dequeue (m : Manager) (ref : JobRef) :
    UniqueIds (job_run_dequeue m ref) ↔ UniqueIds m := by
  unfold job_run_dequeue
  exact UniqueIds_slotModify m ref _ (fun x => rfl)

theorem getUnit_slotModify_fields (m : Manager) (ref : JobRef) (f : Job → Job)
    (uid : UnitId) (u u' : SdUnit) (hu : m.getUnit uid = some u)
    (h' : (m.slotModify ref f).getUnit uid = some u') :
    u'.after = u.after ∧ u'.before = u.before ∧
    u'.active_state = u.active_state ∧ u'.start_r = u.start_r ∧
    u'.stop_r = u.stop_r ∧ u'.reload_r = u.reload_r := by
  unfold Manager.slotModify at h'
  rw [getUnit_updateUnit _ _ _ (fun x => by by_cases hb : ref.2 <;> simp [hb]) uid] at h'
  by_cases h1 : uid = ref.1
  · rw [if_pos h1, hu] at h'
    have : u' = (fun u => if ref.2 then { u with nop_job := u.nop_job.map f }
        else { u with job := u.job.map f }) u := by
      simpa using h'.symm
    subst this
    by_cases hb : ref.2 <;> simp [hb]
  · rw [if_neg h1, hu] at h'
    have : u' = u := by simpa using h'.symm
    subst this
    exact ⟨rfl, rfl, rfl, rfl, rfl, rfl⟩

theorem getUnit_slotModify_none (m : Manager) (ref : JobRef) (f : Job → Job) (uid : UnitId)
    (h : (m.slotModify ref f).getUnit uid = none) : m.getUnit uid = none := by
  unfold Manager.slotModify at h
  rw [getUnit_updateUnit _ _ _ (fun x => by by_cases hb : ref.2 <;> simp [hb]) uid] at h
  by_cases h1 : uid = ref.1
  · rw [if_pos h1] at h
    cases hg : m.getUnit uid with
    | none => rfl
    | some u => rw [hg] at h; simp at h
  · rw [if_neg h1] at h
    exact h

/-- C5 (amended): what `-EBADR` from the unit primitive really does, per
job type.  For a `reload` job, `unit_reload` returning `-EBADR` reaches
the dispatch mapping and the job is finished with terminal result
`skipped`.  For `start`, `stop` and `restart` jobs, `-EBADR` from
`unit_start`/`unit_stop` is converted to 0 ("simply wait") before the
mapping, so the job is *not* finished: it stays installed in state
`running`, and no finish event is recorded. -/
theorem C5_ebadr_semantics
    (m : Manager) (ref : JobRef) (j : Job) (u : SdUnit)
    (hj : m.slotGet ref = some j)
    (hwait : j.state = .waiting)
    (hwf : j.unit = ref.1)
    (hu : m.getUnit j.unit = some u)
    (hrun : job_is_runnable m u j = true) :
    (j.type = .reload → u.reload_r = -EBADR → UniqueIds m →
      (j.id, j.type, JobResult.skipped) ∈ (job_run_and_invalidate m ref).1.finished) ∧
    (((j.type = .start ∧ u.start_r = -EBADR) ∨
      ((j.type = .stop ∨ j.type = .restart) ∧ u.stop_r = -EBADR)) →
      (job_run_and_invalidate m ref).1.slotGet ref =
        some { j with in_run_queue := false, state := .running } ∧
      (job_run_and_invalidate m ref).1.finished = m.finished) := by
  constructor
  · intro htype hre huniq
    unfold job_run_and_invalidate
    split
    · next heq => rw [hj] at heq; cases heq
    · next j' heq =>
      rw [hj] at heq; injection heq with heq; subst heq
      rw [if_neg (by simp [hwait])]
      split
      · next hequ =>
        rw [getUnit_job_run_dequeue] at hequ
        rw [getUnit_slotModify_none _ _ _ _ hequ] at hu
        cases hu
      · next u' hequ =>
        have hequ' : (Manager.getUnit
            (m.slotModify ref fun x => { x with in_run_queue := false }) j.unit) =
            some u' := by rw [← getUnit_job_run_dequeue]; exact hequ
        have hfields := getUnit_slotModify_fields m ref _ j.unit u u' hu hequ'
        have hrn : job_is_runnable (job_run_dequeue m ref) u' j = true := by
          calc job_is_runnable (job_run_dequeue m ref) u' j
              = job_is_runnable (m.slotModify ref fun x => { x with in_run_queue := false })
                  u' j := rfl
            _ = job_is_runnable (m.slotModify ref fun x => { x with in_run_queue := false })
                  u j := job_is_runnable_congr_unit _ u u' j hfields.1 hfields.2.1
            _ = job_is_runnable m u j :=
                job_is_runnable_slotModify m ref (fun x => { x with in_run_queue := false }) (fun x => rfl) (fun x => rfl) u j
            _ = true := hrun
        rw [if_neg (by simp [hrn])]
        have hslot3 : (job_set_state (job_run_dequeue m ref) ref .running).slotGet ref =
            some { j with in_run_queue := false, state := .running } := by
          rw [slotGet_job_set_state, slotGet_job_run_dequeue_self, hj]
          rfl
        have hr : job_run_primitive u' j.type = -EBADR := by
          rw [htype]
          show u'.reload_r = -EBADR
          rw [hfields.2.2.2.2.2]
          exact hre
        rw [hr]
        have huniq3 : UniqueIds (job_set_state (job_run_dequeue m ref) ref .running) :=
          (UniqueIds_job_set_state _ _ _).mpr ((UniqueIds_job_run_dequeue _ _).mpr huniq)
        have hmg : manager_get_job (job_set_state (job_run_dequeue m ref) ref .running) j.id =
            some ref :=
          manager_get_job_eq _ ref { j with in_run_queue := false, state := .running }
            huniq3 hslot3
        unfold job_run_finish
        split
        · next hmg' => rw [hmg] at hmg'; cases hmg'
        · next ref' hmg' =>
          rw [hmg] at hmg'
          injection hmg' with hmg'
          subst hmg'
          rw [if_neg (by decide), if_pos rfl]
          obtain ⟨u3, hu3⟩ := getUnit_of_slotGet _ ref _ hslot3
          have hlog := jfi_logs ((job_set_state (job_run_dequeue m ref) ref .running).countJobs + 1)
            _ ref .skipped true false _ u3 (Nat.succ_ne_zero _) hslot3 (by rw [← hwf] at hu3; exact hu3)
          exact hlog
  · intro hcase
    unfold job_run_and_invalidate
    split
    · next heq => rw [hj] at heq; cases heq
    · next j' heq =>
      rw [hj] at heq; injection heq with heq; subst heq
      rw [if_neg (by simp [hwait])]
      split
      · next hequ =>
        rw [getUnit_job_run_dequeue] at hequ
        rw [getUnit_slotModify_none _ _ _ _ hequ] at hu
        cases hu
      · next u' hequ =>
        have hequ' : (Manager.getUnit
            (m.slotModify ref fun x => { x with in_run_queue := false }) j.unit) =
            some u' := by rw [← getUnit_job_run_dequeue]; exact hequ
        have hfields := getUnit_slotModify_fields m ref _ j.unit u u' hu hequ'
        have hrn : job_is_runnable (job_run_dequeue m ref) u' j = true := by
          calc job_is_runnable (job_run_dequeue m ref) u' j
              = job_is_runnable (m.slotModify ref fun x => { x with in_run_queue := false })
                  u' j := rfl
            _ = job_is_runnable (m.slotModify ref fun x => { x with in_run_queue := false })
                  u j := job_is_runnable_congr_unit _ u u' j hfields.1 hfields.2.1
            _ = job_is_runnable m u j :=
                job_is_runnable_slotModify m ref (fun x => { x with in_run_queue := false }) (fun x => rfl) (fun x => rfl) u j
            _ = true := hrun
        rw [if_neg (by simp [hrn])]
        have hslot3 : (job_set_state (job_run_dequeue m ref) ref .running).slotGet ref =
            some { j with in_run_queue := false, state := .running } := by
          rw [slotGet_job_set_state, slotGet_job_run_dequeue_self, hj]
          rfl
        have hfin3 : (job_set_state (job_run_dequeue m ref) ref .running).finished =
            m.finished := by
          rw [finished_job_set_state, finished_job_run_dequeue]
        have hr0 : job_run_primitive u' j.type = 0 := by
          rcases hcase with ⟨hty, hre⟩ | ⟨hty, hre⟩
          · rw [hty]
            show (if u'.start_r = -EBADR then 0 else u'.start_r) = 0
            rw [hfields.2.2.2.1, hre]
            simp
          · rcases hty with hty | hty <;>
            · rw [hty]
              show (if u'.stop_r = -EBADR then 0 else u'.stop_r) = 0
              rw [hfields.2.2.2.2.1, hre]
              simp
        rw [hr0]
        unfold job_run_finish
        split
        · exact ⟨hslot3, hfin3⟩
        · rw [if_neg (by decide), if_neg (by decide), if_neg (by decide),
              if_neg (by decide), if_neg (by decide), if_neg (by decide),
              if_neg (by decide)]
          exact ⟨hslot3, hfin3⟩

/-- C5 counterexample: a `start` job whose `unit_start` returns `-EBADR` is
*not* finished with result `skipped` (nor with any result): the dispatcher
converts `-EBADR` to 0 for `start`/`stop`/`restart` jobs, so the job stays
installed in state `running` and no finish event is logged. -/
theorem C5_counterexample :
    (job_run_and_invalidate mgrStartEBADR (0, false)).1.finished = [] ∧
    (job_run_and_invalidate mgrStartEBADR (0, false)).1.slotGet (0, false) =
      some { mkJob 1 0 .start with installed := true, state := .running } := by
  decide

theorem C5_ebadr_semantics_witness :
    ((1, JobType.reload, JobResult.skipped) ∈
        (job_run_and_invalidate mgrReloadEBADR (0, false)).1.finished) ∧
    ((job_run_and_invalidate mgrStartEBADR (0, false)).1.slotGet (0, false) =
        some { mkJob 1 0 .start with installed := true, in_run_queue := false, state := .running } ∧
     (job_run_and_invalidate mgrStartEBADR (0, false)).1.finished =
        mgrStartEBADR.finished) := by
  constructor
  · exact (C5_ebadr_semantics mgrReloadEBADR (0, false)
      { mkJob 1 0 .reload with installed := true, in_run_queue := true }
      { mkUnit 0 with active_state := .active, reload_r := -EBADR, job := some { mkJob 1 0 .reload with installed := true, in_run_queue := true } }
      (by decide) rfl rfl (by decide) (by decide)).1 rfl rfl ⟨by decide, by decide⟩
  · exact (C5_ebadr_semantics mgrStartEBADR (0, false)
      { mkJob 1 0 .start with installed := true, in_run_queue := true }
      { mkUnit 0 with start_r := -EBADR, job := some { mkJob 1 0 .start with installed := true, in_run_queue := true } }
      (by decide) rfl rfl (by decide) (by decide)).2 (Or.inl ⟨rfl, rfl⟩)

/-!
## Preservation of the structural invariants by every engine operation
-/

theorem mem_units_of_getUnit (m : Manager) (uid : UnitId) (u : SdUnit)
    (h : m.getUnit uid = some u) : u ∈ m.units :=
  List.mem_of_find?_eq_some h

theorem SlotOK_slot (m : Manager) (h : SlotOK m) (ref : JobRef) (j : Job)
    (hj : m.slotGet ref = some j) :
    (ref.2 = false → j.type.isMerging = true) ∧ (ref.2 = true → j.type = JobType.nop) := by
  obtain ⟨u, hu, hid, hcase⟩ := slotGet_cases m ref j hj
  rcases hcase with ⟨hb, hnj⟩ | ⟨hb, hjj⟩
  · exact ⟨fun hf => by (rw [hf] at hb; cases hb), fun _ => (h u hu).2 j hnj⟩
  · exact ⟨fun _ => (h u hu).1 j hjj, fun ht => by (rw [ht] at hb; cases hb)⟩

theorem SlotOK_updateUnit (m : Manager) (uid : UnitId) (g : SdUnit → SdUnit)
    (hg : ∀ u, ((∀ j, u.job = some j → j.type.isMerging = true) ∧
                (∀ j, u.nop_job = some j → j.type = JobType.nop)) →
               ((∀ j, (g u).job = some j → j.type.isMerging = true) ∧
                (∀ j, (g u).nop_job = some j → j.type = JobType.nop)))
    (h : SlotOK m) : SlotOK (m.updateUnit uid g) := by
  intro u' hu'
  have hu2 : u' ∈ m.units.map fun u => if u.id = uid then g u else u := hu'
  rw [List.mem_map] at hu2
  obtain ⟨u, hum, he⟩ := hu2
  by_cases hid : u.id = uid
  · rw [if_pos hid] at he; subst he; exact hg u (h u hum)
  · rw [if_neg hid] at he; subst he; exact h u hum

theorem SlotOK_slotModify (m : Manager) (ref : JobRef) (f : Job → Job)
    (hreg : ref.2 = false → ∀ x, x.type.isMerging = true → (f x).type.isMerging = true)
    (hnop : ref.2 = true → ∀ x, x.type = JobType.nop → (f x).type = JobType.nop)
    (h : SlotOK m) : SlotOK (m.slotModify ref f) := by
  apply SlotOK_updateUnit _ _ _ _ h
  intro u hu
  cases hb : ref.2 with
  | true =>
    refine ⟨fun j hj => hu.1 j (by simpa [hb] using hj), fun j hj => ?_⟩
    simp only [hb, if_true] at hj
    rcases Option.map_eq_some'.mp hj with ⟨x, hx, he⟩
    subst he
    exact hnop hb x (hu.2 x hx)
  | false =>
    refine ⟨fun j hj => ?_, fun j hj => hu.2 j (by simpa [hb] using hj)⟩
    simp only [hb, if_false] at hj
    rcases Option.map_eq_some'.mp hj with ⟨x, hx, he⟩
    subst he
    exact hreg hb x (hu.1 x hx)

theorem SlotOK_slotSet (m : Manager) (ref : JobRef) (oj : Option Job)
    (hreg : ref.2 = false → ∀ j, oj = some j → j.type.isMerging = true)
    (hnop : ref.2 = true → ∀ j, oj = some j → j.type = JobType.nop)
    (h : SlotOK m) : SlotOK (m.slotSet ref oj) := by
  apply SlotOK_updateUnit _ _ _ _ h
  intro u hu
  cases hb : ref.2 with
  | true =>
    exact ⟨fun j hj => hu.1 j (by simpa [hb] using hj),
           fun j hj => hnop hb j (by simpa [hb] using hj)⟩
  | false =>
    exact ⟨fun j hj => hreg hb j (by simpa [hb] using hj),
           fun j hj => hu.2 j (by simpa [hb] using hj)⟩

theorem RefOK_slotModify (m : Manager) (ref : JobRef) (f : Job → Job)
    (hf : ∀ x, m.slotGet ref = some x →
      (f x).unit = x.unit ∧ ((f x).type = JobType.nop ↔ x.type = JobType.nop))
    (h : RefOK m) : RefOK (m.slotModify ref f) := by
  intro r j' hj'
  by_cases hr : r = ref
  · subst hr
    rw [slotGet_slotModify_self] at hj'
    cases hx : m.slotGet r with
    | none => rw [hx] at hj'; cases hj'
    | some x =>
      rw [hx] at hj'
      injection hj' with hj'
      subst hj'
      obtain ⟨hu0, ht0⟩ := h r x hx
      obtain ⟨hu, ht⟩ := hf x hx
      exact ⟨hu.trans hu0, ht0.trans ht.symm⟩
  · rw [slotGet_slotModify_ne _ _ _ _ hr] at hj'
    exact h r j' hj'

theorem slotGet_slotSet_getUnit_none (m : Manager) (ref : JobRef) (oj : Option Job)
    (hg : m.getUnit ref.1 = none) : (m.slotSet ref oj).slotGet ref = none := by
  unfold Manager.slotSet Manager.slotGet
  rw [getUnit_updateUnit _ _ _ (fun u => by by_cases h : ref.2 <;> simp [h]) _, if_pos rfl, hg]
  rfl

theorem RefOK_slotSet_none (m : Manager) (ref : JobRef)
    (h : RefOK m) : RefOK (m.slotSet ref none) := by
  intro r j hj
  by_cases hr : r = ref
  · subst hr
    cases hg : m.getUnit r.1 with
    | none => rw [slotGet_slotSet_getUnit_none _ _ _ hg] at hj; cases hj
    | some u => rw [slotGet_slotSet_self _ _ _ u hg] at hj; cases hj
  · rw [slotGet_slotSet_ne _ _ _ _ hr] at hj
    exact h r j hj

theorem RQInv_transfer (m m' : Manager)
    (hq : m'.run_queue = m.run_queue)
    (hs : ∀ r, Option.map Job.in_run_queue (m'.slotGet r) =
               Option.map Job.in_run_queue (m.slotGet r))
    (h : RQInv m) : RQInv m' := by
  obtain ⟨hnd, hocc, hbit⟩ := h
  refine ⟨by rw [hq]; exact hnd, ?_, ?_⟩
  · intro r hr
    rw [hq] at hr
    obtain ⟨j, hj⟩ := hocc r hr
    have hmap := hs r
    rw [hj] at hmap
    cases hx : m'.slotGet r with
    | none => rw [hx] at hmap; cases hmap
    | some j' => exact ⟨j', rfl⟩
  · intro r j' hj'
    have hmap := hs r
    rw [hj'] at hmap
    cases hx : m.slotGet r with
    | none => rw [hx] at hmap; cases hmap
    | some j =>
      rw [hx] at hmap
      injection hmap with hb
      rw [hq, hb]
      exact hbit r j hx

theorem RQInv_slotModify (m : Manager) (ref : JobRef) (f : Job → Job)
    (hf : ∀ x, (f x).in_run_queue = x.in_run_queue)
    (h : RQInv m) : RQInv (m.slotModify ref f) := by
  refine RQInv_transfer m (m.slotModify ref f) rfl (fun r => ?_) h
  by_cases hr : r = ref
  · subst hr
    rw [slotGet_slotModify_self]
    cases m.slotGet r with
    | none => rfl
    | some x => show some ((f x).in_run_queue) = some x.in_run_queue; rw [hf x]
  · rw [slotGet_slotModify_ne _ _ _ _ hr]

theorem job_uninstall_noop (m : Manager) (ref : JobRef) (h : m.slotGet ref = none) :
    job_uninstall m ref = m := by
  unfold job_uninstall
  rw [h]

theorem RQInv_job_set_state (m : Manager) (ref : JobRef) (s : JobState)
    (h : RQInv m) : RQInv (job_set_state m ref s) := by
  refine RQInv_transfer m _ (run_queue_job_set_state m ref s) (fun r => ?_) h
  by_cases hr : r = ref
  · subst hr
    rw [slotGet_job_set_state]
    cases m.slotGet r <;> rfl
  · rw [slotGet_job_set_state_ne _ _ _ _ hr]

theorem RQInv_job_uninstall (m : Manager) (ref : JobRef)
    (h : RQInv m) (hnm : ref ∉ m.run_queue) : RQInv (job_uninstall m ref) := by
  obtain ⟨hnd, hocc, hbit⟩ := h
  refine ⟨by rw [run_queue_job_uninstall]; exact hnd, ?_, ?_⟩
  · intro r hr
    rw [run_queue_job_uninstall] at hr
    have hne : r ≠ ref := fun he => hnm (he ▸ hr)
    obtain ⟨j, hj⟩ := hocc r hr
    exact ⟨j, by rw [slotGet_job_uninstall_ne m ref r hne]; exact hj⟩
  · intro r j hj
    by_cases hr : r = ref
    · subst hr
      cases horig : m.slotGet r with
      | none => rw [job_uninstall_noop m r horig, horig] at hj; cases hj
      | some j0 => rw [slotGet_job_uninstall_self m r j0 horig] at hj; cases hj
    · rw [slotGet_job_uninstall_ne m ref r hr] at hj
      rw [run_queue_job_uninstall]
      exact hbit r j hj

theorem RQInv_uninstall_erase (m : Manager) (ref : JobRef)
    (h : RQInv m) :
    RQInv { job_uninstall m ref with
            run_queue := (job_uninstall m ref).run_queue.erase ref } := by
  obtain ⟨hnd, hocc, hbit⟩ := h
  have hq : (job_uninstall m ref).run_queue = m.run_queue := run_queue_job_uninstall m ref
  refine ⟨?_, ?_, ?_⟩
  · show ((job_uninstall m ref).run_queue.erase ref).Nodup
    rw [hq]
    exact hnd.erase ref
  · intro r hr
    have hr' : r ∈ m.run_queue.erase ref := by rw [← hq]; exact hr
    obtain ⟨hne, hmem⟩ := hnd.mem_erase_iff.mp hr'
    obtain ⟨j, hj⟩ := hocc r hmem
    refine ⟨j, ?_⟩
    show (job_uninstall m ref).slotGet r = some j
    rw [slotGet_job_uninstall_ne m ref r hne]
    exact hj
  · intro r j hj
    have hj' : (job_uninstall m ref).slotGet r = some j := hj
    show j.in_run_queue = true ↔ r ∈ (job_uninstall m ref).run_queue.erase ref
    rw [hq]
    by_cases hr : r = ref
    · subst hr
      cases horig : m.slotGet r with
      | none => rw [job_uninstall_noop m r horig, horig] at hj'; cases hj'
      | some j0 => rw [slotGet_job_uninstall_self m r j0 horig] at hj'; cases hj'
    · rw [slotGet_job_uninstall_ne m ref r hr] at hj'
      rw [hnd.mem_erase_iff]
      constructor
      · intro hb; exact ⟨hr, (hbit r j hj').mp hb⟩
      · rintro ⟨_, hm⟩; exact (hbit r j hj').mpr hm

theorem RQInv_jfiRemove (m : Manager) (ref : JobRef) (j : Job) (result : JobResult)
    (h : RQInv m) (hj : m.slotGet ref = some j) : RQInv (jfiRemove m ref j result) := by
  have hbit := h.2.2 ref j hj
  unfold jfiRemove
  split
  · split
    · next hb => exact RQInv_uninstall_erase _ ref h
    · next hb => exact RQInv_job_uninstall _ ref h (fun hm => hb (hbit.mpr hm))
  · split
    · next hb => exact RQInv_uninstall_erase _ ref h
    · next hb => exact RQInv_job_uninstall _ ref h (fun hm => hb (hbit.mpr hm))

theorem RQInv_job_add_to_run_queue (m : Manager) (ref : JobRef)
    (h : RQInv m) : RQInv (job_add_to_run_queue m ref) := by
  obtain ⟨hnd, hocc, hbit⟩ := h
  unfold job_add_to_run_queue
  split
  · exact ⟨hnd, hocc, hbit⟩
  · next j heq =>
    split
    · exact ⟨hnd, hocc, hbit⟩
    · next hb =>
      have hnm : ref ∉ m.run_queue := fun hm => hb ((hbit ref j heq).mpr hm)
      refine ⟨?_, ?_, ?_⟩
      · show (ref :: m.run_queue).Nodup
        exact List.nodup_cons.mpr ⟨hnm, hnd⟩
      · intro r hr
        have hr' : r ∈ ref :: m.run_queue := hr
        by_cases hre : r = ref
        · subst hre
          refine ⟨{ j with in_run_queue := true }, ?_⟩
          show (m.slotModify r fun x => { x with in_run_queue := true }).slotGet r =
            some { j with in_run_queue := true }
          rw [slotGet_slotModify_self, heq]
          rfl
        · obtain ⟨j', hj'⟩ := hocc r ((List.mem_cons.mp hr').resolve_left hre)
          refine ⟨j', ?_⟩
          show (m.slotModify ref fun x => { x with in_run_queue := true }).slotGet r = some j'
          rw [slotGet_slotModify_ne _ _ _ _ hre]
          exact hj'
      · intro r j' hj'
        have hj2 : (m.slotModify ref fun x => { x with in_run_queue := true }).slotGet r =
            some j' := hj'
        show j'.in_run_queue = true ↔ r ∈ ref :: m.run_queue
        by_cases hre : r = ref
        · subst hre
          rw [slotGet_slotModify_self, heq] at hj2
          injection hj2 with hj2
          subst hj2
          exact ⟨fun _ => List.mem_cons_self _ _, fun _ => rfl⟩
        · rw [slotGet_slotModify_ne _ _ _ _ hre] at hj2
          rw [List.mem_cons]
          constructor
          · intro hbt; exact Or.inr ((hbit r j' hj2).mp hbt)
          · rintro (he | hm)
            · exact absurd he hre
            · exact (hbit r j' hj2).mpr hm

theorem RQInv_addJobsToRunQueue (m : Manager) (l : List UnitId)
    (h : RQInv m) : RQInv (addJobsToRunQueue m l) := by
  induction l generalizing m with
  | nil => exact h
  | cons o rest ih => exact ih _ (RQInv_job_add_to_run_queue _ _ h)

theorem RQInv_jfiPatch (m : Manager) (ref : JobRef) (h : RQInv m) :
    RQInv (jfiPatch m ref) := by
  unfold jfiPatch
  exact RQInv_job_add_to_run_queue _ _
    (RQInv_job_set_state _ _ _ (RQInv_slotModify _ _ _ (fun x => rfl) h))

theorem RQInv_jfi :
    ∀ (fuel : Nat) (m : Manager) (ref : JobRef) (result : JobResult)
      (recursive already : Bool),
      RQInv m → RQInv (jfi fuel m ref result recursive already) := by
  intro fuel
  induction fuel with
  | zero => intro m ref result recursive already h; exact h
  | succ fuel ih =>
    intro m ref result recursive already h
    unfold jfi
    split
    · exact h
    · next j heq =>
      split
      · exact h
      · next u hequ =>
        split
        · exact RQInv_addJobsToRunQueue _ _
            (RQInv_addJobsToRunQueue _ _ (RQInv_jfiPatch _ _ h))
        · have hrem : RQInv (jfiRemove
              { m with finished := (j.id, j.type, result) :: m.finished } ref j result) :=
            RQInv_jfiRemove _ ref j result h (by rw [slotGet_set_finished]; exact heq)
          exact RQInv_addJobsToRunQueue _ _ (RQInv_addJobsToRunQueue _ _
            (jfiPropagate_rel (R := fun a b => RQInv a → RQInv b)
              (fun _ h => h) (fun h1 h2 h => h2 (h1 h))
              (fun m' r' h' => ih m' r' .dependency true false h')
              _ u j.type result recursive hrem))

theorem merging_of_inTransaction (t : JobType) (h1 : t.inTransaction = true)
    (h2 : t ≠ JobType.nop) : t.isMerging = true := by
  revert h1 h2
  cases t <;> decide

theorem merge_and_collapse_merging :
    ∀ (a b : JobType) (s : UnitActiveState) (t : JobType),
      a.isMerging = true → b.isMerging = true →
      job_type_merge_and_collapse a b s = some t → t.isMerging = true := by
  decide

theorem SlotOK_job_set_state (m : Manager) (ref : JobRef) (s : JobState)
    (h : SlotOK m) : SlotOK (job_set_state m ref s) := by
  unfold job_set_state
  split
  · exact h
  · split
    · exact h
    · have h1 : SlotOK (m.slotModify ref fun x => { x with state := s }) :=
        SlotOK_slotModify m ref _ (fun _ x hx => hx) (fun _ x hx => hx) h
      split
      · exact h1
      · split
        · exact h1
        · exact h1

theorem SlotOK_job_uninstall (m : Manager) (ref : JobRef)
    (h : SlotOK m) : SlotOK (job_uninstall m ref) := by
  unfold job_uninstall
  split
  · exact h
  · exact SlotOK_slotSet _ _ _ (fun _ j hj => by cases hj) (fun _ j hj => by cases hj)
      (SlotOK_job_set_state _ _ _ h)

theorem SlotOK_job_add_to_run_queue (m : Manager) (ref : JobRef)
    (h : SlotOK m) : SlotOK (job_add_to_run_queue m ref) := by
  unfold job_add_to_run_queue
  split
  · exact h
  · split
    · exact h
    · exact SlotOK_slotModify m ref _ (fun _ x hx => hx) (fun _ x hx => hx) h

theorem SlotOK_addJobsToRunQueue (m : Manager) (l : List UnitId)
    (h : SlotOK m) : SlotOK (addJobsToRunQueue m l) := by
  induction l generalizing m with
  | nil => exact h
  | cons o rest ih => exact ih _ (SlotOK_job_add_to_run_queue _ _ h)

theorem SlotOK_jfiPatch (m : Manager) (ref : JobRef) (hb : ref.2 = false)
    (h : SlotOK m) : SlotOK (jfiPatch m ref) := by
  unfold jfiPatch
  apply SlotOK_job_add_to_run_queue
  apply SlotOK_job_set_state
  exact SlotOK_slotModify m ref _ (fun _ x _ => rfl)
    (fun hbt => by rw [hb] at hbt; cases hbt) h

theorem SlotOK_jfiRemove (m : Manager) (ref : JobRef) (j : Job) (result : JobResult)
    (h : SlotOK m) : SlotOK (jfiRemove m ref j result) := by
  unfold jfiRemove
  split <;> split
  · exact SlotOK_job_uninstall _ _ h
  · exact SlotOK_job_uninstall _ _ h
  · exact SlotOK_job_uninstall _ _ h
  · exact SlotOK_job_uninstall _ _ h

theorem SlotOK_jfi :
    ∀ (fuel : Nat) (m : Manager) (ref : JobRef) (result : JobResult)
      (recursive already : Bool),
      SlotOK m → SlotOK (jfi fuel m ref result recursive already) := by
  intro fuel
  induction fuel with
  | zero => intro m ref result recursive already h; exact h
  | succ fuel ih =>
    intro m ref result recursive already h
    unfold jfi
    split
    · exact h
    · next j heq =>
      split
      · exact h
      · next u hequ =>
        split
        · next hcond =>
          have hb : ref.2 = false := by
            cases hb2 : ref.2 with
            | false => rfl
            | true =>
              have hnp := (SlotOK_slot m h ref j heq).2 hb2
              rw [hcond.2] at hnp
              cases hnp
          exact SlotOK_addJobsToRunQueue _ _
            (SlotOK_addJobsToRunQueue _ _ (SlotOK_jfiPatch _ _ hb h))
        · exact SlotOK_addJobsToRunQueue _ _ (SlotOK_addJobsToRunQueue _ _
            (jfiPropagate_rel (R := fun a b => SlotOK a → SlotOK b)
              (fun _ h => h) (fun h1 h2 h => h2 (h1 h))
              (fun m' r' h' => ih m' r' .dependency true false h')
              _ u j.type result recursive (SlotOK_jfiRemove _ ref j result h)))

theorem RefOK_job_set_state (m : Manager) (ref : JobRef) (s : JobState)
    (h : RefOK m) : RefOK (job_set_state m ref s) := by
  unfold job_set_state
  split
  · exact h
  · split
    · exact h
    · have h1 : RefOK (m.slotModify ref fun x => { x with state := s }) :=
        RefOK_slotModify m ref _ (fun x _ => ⟨rfl, Iff.rfl⟩) h
      split
      · exact h1
      · split
        · exact h1
        · exact h1

theorem RefOK_job_uninstall (m : Manager) (ref : JobRef)
    (h : RefOK m) : RefOK (job_uninstall m ref) := by
  unfold job_uninstall
  split
  · exact h
  · exact RefOK_slotSet_none _ _ (RefOK_job_set_state _ _ _ h)

theorem RefOK_job_add_to_run_queue (m : Manager) (ref : JobRef)
    (h : RefOK m) : RefOK (job_add_to_run_queue m ref) := by
  unfold job_add_to_run_queue
  split
  · exact h
  · split
    · exact h
    · exact RefOK_slotModify m ref _ (fun x _ => ⟨rfl, Iff.rfl⟩) h

theorem RefOK_addJobsToRunQueue (m : Manager) (l : List UnitId)
    (h : RefOK m) : RefOK (addJobsToRunQueue m l) := by
  induction l generalizing m with
  | nil => exact h
  | cons o rest ih => exact ih _ (RefOK_job_add_to_run_queue _ _ h)

theorem RefOK_jfiPatch (m : Manager) (ref : JobRef) (j : Job)
    (hj : m.slotGet ref = some j) (hjt : j.type ≠ JobType.nop)
    (h : RefOK m) : RefOK (jfiPatch m ref) := by
  unfold jfiPatch
  apply RefOK_job_add_to_run_queue
  apply RefOK_job_set_state
  apply RefOK_slotModify m ref _ _ h
  intro x hx
  have hxj : x = j := Option.some.inj (hx.symm.trans hj)
  subst hxj
  exact ⟨rfl, iff_of_false (fun hc => by simp at hc) hjt⟩

theorem RefOK_jfiRemove (m : Manager) (ref : JobRef) (j : Job) (result : JobResult)
    (h : RefOK m) : RefOK (jfiRemove m ref j result) := by
  unfold jfiRemove
  split <;> split
  · exact RefOK_job_uninstall _ _ h
  · exact RefOK_job_uninstall _ _ h
  · exact RefOK_job_uninstall _ _ h
  · exact RefOK_job_uninstall _ _ h

theorem RefOK_jfi :
    ∀ (fuel : Nat) (m : Manager) (ref : JobRef) (result : JobResult)
      (recursive already : Bool),
      RefOK m → RefOK (jfi fuel m ref result recursive already) := by
  intro fuel
  induction fuel with
  | zero => intro m ref result recursive already h; exact h
  | succ fuel ih =>
    intro m ref result recursive already h
    unfold jfi
    split
    · exact h
    · next j heq =>
      split
      · exact h
      · next u hequ =>
        split
        · next hcond =>
          exact RefOK_addJobsToRunQueue _ _ (RefOK_addJobsToRunQueue _ _
            (RefOK_jfiPatch _ ref j (by rw [slotGet_set_finished]; exact heq)
              (by rw [hcond.2]; decide) h))
        · exact RefOK_addJobsToRunQueue _ _ (RefOK_addJobsToRunQueue _ _
            (jfiPropagate_rel (R := fun a b => RefOK a → RefOK b)
              (fun _ h => h) (fun h1 h2 h => h2 (h1 h))
              (fun m' r' h' => ih m' r' .dependency true false h')
              _ u j.type result recursive (RefOK_jfiRemove _ ref j result h)))

theorem EngineInv_jfi (fuel : Nat) (m : Manager) (ref : JobRef) (result : JobResult)
    (recursive already : Bool) (h : EngineInv m) :
    EngineInv (jfi fuel m ref result recursive already) :=
  ⟨RQInv_jfi fuel m ref result recursive already h.1,
   SlotOK_jfi fuel m ref result recursive already h.2.1,
   RefOK_jfi fuel m ref result recursive already h.2.2⟩

theorem EngineInv_job_set_state (m : Manager) (ref : JobRef) (s : JobState)
    (h : EngineInv m) : EngineInv (job_set_state m ref s) :=
  ⟨RQInv_job_set_state m ref s h.1, SlotOK_job_set_state m ref s h.2.1,
   RefOK_job_set_state m ref s h.2.2⟩

theorem EngineInv_job_add_to_run_queue (m : Manager) (ref : JobRef)
    (h : EngineInv m) : EngineInv (job_add_to_run_queue m ref) :=
  ⟨RQInv_job_add_to_run_queue m ref h.1, SlotOK_job_add_to_run_queue m ref h.2.1,
   RefOK_job_add_to_run_queue m ref h.2.2⟩

theorem RQInv_job_run_dequeue (m : Manager) (ref : JobRef) (h : RQInv m) :
    RQInv (job_run_dequeue m ref) := by
  obtain ⟨hnd, hocc, hbit⟩ := h
  refine ⟨?_, ?_, ?_⟩
  · show (m.run_queue.erase ref).Nodup
    exact hnd.erase ref
  · intro r hr
    have hr' : r ∈ m.run_queue.erase ref := hr
    obtain ⟨hne, hmem⟩ := hnd.mem_erase_iff.mp hr'
    obtain ⟨j, hj⟩ := hocc r hmem
    refine ⟨j, ?_⟩
    show (m.slotModify ref fun x => { x with in_run_queue := false }).slotGet r = some j
    rw [slotGet_slotModify_ne _ _ _ _ hne]
    exact hj
  · intro r j hj
    have hj' : (m.slotModify ref fun x => { x with in_run_queue := false }).slotGet r =
        some j := hj
    show j.in_run_queue = true ↔ r ∈ m.run_queue.erase ref
    by_cases hre : r = ref
    · subst hre
      rw [slotGet_slotModify_self] at hj'
      cases hx : m.slotGet r with
      | none => rw [hx] at hj'; cases hj'
      | some x =>
        rw [hx] at hj'
        injection hj' with hj'
        subst hj'
        constructor
        · intro habs; simp at habs
        · intro hmem; exact absurd rfl (hnd.mem_erase_iff.mp hmem).1
    · rw [slotGet_slotModify_ne _ _ _ _ hre] at hj'
      rw [hnd.mem_erase_iff]
      exact ⟨fun hb => ⟨hre, (hbit r j hj').mp hb⟩, fun hc => (hbit r j hj').mpr hc.2⟩

theorem EngineInv_job_run_dequeue (m : Manager) (ref : JobRef)
    (h : EngineInv m) : EngineInv (job_run_dequeue m ref) :=
  ⟨RQInv_job_run_dequeue m ref h.1,
   SlotOK_slotModify m ref _ (fun _ _ hx => hx) (fun _ _ hx => hx) h.2.1,
   RefOK_slotModify m ref _ (fun _ _ => ⟨rfl, Iff.rfl⟩) h.2.2⟩

theorem EngineInv_job_run_finish (m : Manager) (id : Nat) (r : Int)
    (h : EngineInv m) : EngineInv (job_run_finish m id r).1 := by
  unfold job_run_finish
  split
  · exact h
  · split
    · exact EngineInv_jfi _ _ _ _ _ _ h
    · split
      · exact EngineInv_jfi _ _ _ _ _ _ h
      · split
        · exact EngineInv_jfi _ _ _ _ _ _ h
        · split
          · exact EngineInv_jfi _ _ _ _ _ _ h
          · split
            · exact EngineInv_jfi _ _ _ _ _ _ h
            · split
              · exact EngineInv_job_set_state _ _ _ h
              · split
                · exact EngineInv_jfi _ _ _ _ _ _ h
                · exact h

theorem EngineInv_job_run_and_invalidate (m : Manager) (ref : JobRef)
    (h : EngineInv m) : EngineInv (job_run_and_invalidate m ref).1 := by
  unfold job_run_and_invalidate
  split
  · exact h
  · split
    · exact EngineInv_job_run_dequeue _ _ h
    · split
      · exact EngineInv_job_run_dequeue _ _ h
      · split
        · exact EngineInv_job_run_dequeue _ _ h
        · exact EngineInv_job_run_finish _ _ _
            (EngineInv_job_set_state _ _ _ (EngineInv_job_run_dequeue _ _ h))

theorem jfi_slot_cleared (fuel : Nat) (m : Manager) (ref : JobRef) (j : Job) (u : SdUnit)
    (result : JobResult) (recursive already : Bool)
    (hfuel : fuel ≠ 0)
    (hj : m.slotGet ref = some j)
    (hu : m.getUnit j.unit = some u)
    (hcond : ¬ (result = .done ∧ j.type = .restart)) :
    (jfi fuel m ref result recursive already).slotGet ref = none := by
  obtain ⟨f, rfl⟩ : ∃ f, fuel = f + 1 := ⟨fuel - 1, by omega⟩
  unfold jfi
  split
  · next heq => rw [hj] at heq; cases heq
  · next j' heq =>
    rw [hj] at heq; injection heq with heq; subst heq
    split
    · next hequ => rw [hu] at hequ; cases hequ
    · next u' hequ =>
      have huu : u = u' := Option.some.inj (hu.symm.trans hequ)
      subst huu
      rw [if_neg hcond]
      apply slotGet_addJobsToRunQueue_none
      apply slotGet_addJobsToRunQueue_none
      have hM2 : (jfiRemove { m with finished := (j.id, j.type, result) :: m.finished }
          ref j result).slotGet ref = none :=
        slotGet_jfiRemove_self _ _ _ j _ hj
      exact jfiPropagate_rel
        (R := fun a b => ∀ r, a.slotGet r = none → b.slotGet r = none)
        (fun _ _ h => h) (fun h1 h2 r h => h2 r (h1 r h))
        (fun m' r' rr h => jfi_slot_none f m' r' .dependency true false rr h)
        _ _ _ _ _ ref hM2

theorem EngineInv_slotSet_install (m : Manager) (ref : JobRef) (j' : Job)
    (hslot : m.slotGet ref = none)
    (hunit : j'.unit = ref.1)
    (htiff : ref.2 = true ↔ j'.type = JobType.nop)
    (hmerg : ref.2 = false → j'.type.isMerging = true)
    (hbitf : j'.in_run_queue = false)
    (h : EngineInv m) : EngineInv (m.slotSet ref (some j')) := by
  obtain ⟨⟨hnd, hocc, hbit⟩, hsOK, hrOK⟩ := h
  have hnm : ref ∉ m.run_queue := fun hm => by
    obtain ⟨j0, hj0⟩ := hocc ref hm
    rw [hslot] at hj0
    cases hj0
  have hslotnew : (m.slotSet ref (some j')).slotGet ref = none ∨
      (m.slotSet ref (some j')).slotGet ref = some j' := by
    cases hg : m.getUnit ref.1 with
    | none => exact Or.inl (slotGet_slotSet_getUnit_none m ref _ hg)
    | some u => exact Or.inr (slotGet_slotSet_self m ref _ u hg)
  refine ⟨⟨?_, ?_, ?_⟩, ?_, ?_⟩
  · show m.run_queue.Nodup
    exact hnd
  · intro r hr
    have hr' : r ∈ m.run_queue := hr
    have hne : r ≠ ref := fun he => hnm (he ▸ hr')
    obtain ⟨j0, hj0⟩ := hocc r hr'
    exact ⟨j0, by rw [slotGet_slotSet_ne _ _ _ _ hne]; exact hj0⟩
  · intro r j0 hj0
    show j0.in_run_queue = true ↔ r ∈ m.run_queue
    by_cases hre : r = ref
    · subst hre
      rcases hslotnew with hn | hs
      · rw [hn] at hj0; cases hj0
      · rw [hs] at hj0
        injection hj0 with hj0
        subst hj0
        exact iff_of_false (by simp [hbitf]) hnm
    · rw [slotGet_slotSet_ne _ _ _ _ hre] at hj0
      exact hbit r j0 hj0
  · exact SlotOK_slotSet m ref _
      (fun hb j0 hj0 => by injection hj0 with hj0; subst hj0; exact hmerg hb)
      (fun hb j0 hj0 => by injection hj0 with hj0; subst hj0; exact htiff.mp hb) hsOK
  · intro r j0 hj0
    by_cases hre : r = ref
    · subst hre
      rcases hslotnew with hn | hs
      · rw [hn] at hj0; cases hj0
      · rw [hs] at hj0
        injection hj0 with hj0
        subst hj0
        exact ⟨hunit, htiff⟩
    · rw [slotGet_slotSet_ne _ _ _ _ hre] at hj0
      exact hrOK r j0 hj0

theorem EngineInv_installJobIntoSlot (m : Manager) (j : Job)
    (hslot : m.slotGet (jobRefOfJob j) = none)
    (ht : j.type.inTransaction = true) (hq : j.in_run_queue = false)
    (h : EngineInv m) : EngineInv (installJobIntoSlot m j).1 :=
  EngineInv_slotSet_install m (jobRefOfJob j) { j with installed := true } hslot rfl
    (by simp [jobRefOfJob])
    (fun hb => merging_of_inTransaction _ ht (by simpa [jobRefOfJob] using hb)) hq h

theorem EngineInv_merge_slot (m : Manager) (j : Job) (s : UnitActiveState)
    (ht : j.type.inTransaction = true)
    (h : EngineInv m) :
    EngineInv (m.slotModify (jobRefOfJob j) fun x => job_merge_into_installed x j s) := by
  obtain ⟨hrq, hsOK, hrOK⟩ := h
  refine ⟨RQInv_slotModify _ _ _ (fun x => rfl) hrq, ?_, ?_⟩
  · apply SlotOK_slotModify _ _ _ _ _ hsOK
    · intro hb x hx
      have hjt : j.type ≠ JobType.nop := by simpa [jobRefOfJob] using hb
      have hjm : j.type.isMerging = true := merging_of_inTransaction _ ht hjt
      have hxnop : x.type ≠ JobType.nop := by
        intro he
        rw [he] at hx
        cases hx
      show (job_merge_into_installed x j s).type.isMerging = true
      unfold job_merge_into_installed
      rw [if_pos hxnop]
      cases hm : job_type_merge_and_collapse x.type j.type s with
      | none => exact hx
      | some t => exact merge_and_collapse_merging x.type j.type s t hx hjm hm
    · intro hb x hx
      show (job_merge_into_installed x j s).type = JobType.nop
      unfold job_merge_into_installed
      rw [if_neg (by simp [hx])]
      exact hx
  · apply RefOK_slotModify _ _ _ _ hrOK
    intro x hxslot
    refine ⟨rfl, ?_⟩
    by_cases hxnop : x.type = JobType.nop
    · show (job_merge_into_installed x j s).type = JobType.nop ↔ x.type = JobType.nop
      unfold job_merge_into_installed
      rw [if_neg (by simp [hxnop])]
    · cases hb : (jobRefOfJob j).2 with
      | true => exact absurd ((SlotOK_slot m hsOK _ x hxslot).2 hb) hxnop
      | false =>
        have hxm : x.type.isMerging = true := (SlotOK_slot m hsOK _ x hxslot).1 hb
        have hjt : j.type ≠ JobType.nop := by simpa [jobRefOfJob] using hb
        have hjm := merging_of_inTransaction _ ht hjt
        show (job_merge_into_installed x j s).type = JobType.nop ↔ x.type = JobType.nop
        unfold job_merge_into_installed
        rw [if_pos hxnop]
        cases hm : job_type_merge_and_collapse x.type j.type s with
        | none => exact Iff.rfl
        | some t =>
          have htm := merge_and_collapse_merging x.type j.type s t hxm hjm hm
          have htnop : t ≠ JobType.nop := by
            intro he
            rw [he] at htm
            cases htm
          exact iff_of_false htnop hxnop

theorem EngineInv_job_install (m : Manager) (j : Job)
    (ht : j.type.inTransaction = true) (hq : j.in_run_queue = false)
    (h : EngineInv m) : EngineInv (job_install m j).1 := by
  simp only [job_install]
  split
  · next uj heq =>
    split
    · have huju : uj.unit = (jobRefOfJob j).1 := (h.2.2 _ uj heq).1
      obtain ⟨u, hu⟩ := getUnit_of_slotGet m _ uj heq
      have hu' : m.getUnit uj.unit = some u := by rw [huju]; exact hu
      have hclear : (job_finish_and_invalidate m (jobRefOfJob j) .canceled false false).slotGet
          (jobRefOfJob j) = none := by
        unfold job_finish_and_invalidate
        exact jfi_slot_cleared _ m _ uj u .canceled false false (Nat.succ_ne_zero _) heq hu'
          (by rintro ⟨hc, _⟩; cases hc)
      exact EngineInv_installJobIntoSlot _ j hclear ht hq (EngineInv_jfi _ _ _ _ _ _ h)
    · split
      · exact EngineInv_merge_slot m j _ ht h
      · exact EngineInv_job_set_state _ _ _ (EngineInv_merge_slot m j _ ht h)
  · next heq => exact EngineInv_installJobIntoSlot m j heq ht hq h

theorem EngineInv_manager_install_and_enqueue (m : Manager) (j : Job)
    (ht : j.type.inTransaction = true) (hq : j.in_run_queue = false)
    (h : EngineInv m) : EngineInv (manager_install_and_enqueue m j) := by
  unfold manager_install_and_enqueue
  have hji := EngineInv_job_install m j ht hq h
  cases hsplit : job_install m j with
  | mk m' ref' =>
    rw [hsplit] at hji
    exact EngineInv_job_add_to_run_queue _ _ hji

theorem EngineInv_job_install_deserialized (m : Manager) (j : Job)
    (hq : j.in_run_queue = false)
    (h : EngineInv m) : EngineInv (job_install_deserialized m j).1 := by
  simp only [job_install_deserialized]
  split
  · exact h
  · next hti =>
    have ht : j.type.inTransaction = true := not_not.mp hti
    split
    · exact h
    · next heq =>
      have hx := EngineInv_slotSet_install m (jobRefOfJob j)
        { j with installed := true, reloaded := true } heq rfl (by simp [jobRefOfJob])
        (fun hb => merging_of_inTransaction _ ht (by simpa [jobRefOfJob] using hb)) hq h
      split
      · exact hx
      · exact hx

theorem EngineInv_init (m : Manager) (h : InitState m) : EngineInv m := by
  obtain ⟨hslots, hq⟩ := h
  have hnone : ∀ ref : JobRef, m.slotGet ref = none := by
    intro ref
    cases hg : m.getUnit ref.1 with
    | none => unfold Manager.slotGet; rw [hg]; rfl
    | some u =>
      have hm := mem_units_of_getUnit m ref.1 u hg
      obtain ⟨h1, h2⟩ := hslots u hm
      unfold Manager.slotGet
      rw [hg]
      cases hb : ref.2 <;> simp [h1, h2, hb]
  refine ⟨⟨by rw [hq]; exact List.nodup_nil, ?_, ?_⟩, ?_, ?_⟩
  · intro r hr
    rw [hq] at hr
    cases hr
  · intro r j hj
    rw [hnone r] at hj
    cases hj
  · intro u hu
    exact ⟨fun j hj => by (rw [(hslots u hu).1] at hj; cases hj),
           fun j hj => by (rw [(hslots u hu).2] at hj; cases hj)⟩
  · intro r j hj
    rw [hnone r] at hj
    cases hj

theorem EngineInv_step (m m' : Manager) (h : EngineInv m) (hs : Step m m') : EngineInv m' := by
  cases hs with
  | install j ht hsw hi hq => exact EngineInv_manager_install_and_enqueue m j ht hq h
  | installDeserialized j hi hq => exact EngineInv_job_install_deserialized m j hq h
  | run ref hex => exact EngineInv_job_run_and_invalidate m ref h
  | finish ref result recursive already fuel =>
    exact EngineInv_jfi fuel m ref result recursive already h
  | timer ref => exact EngineInv_jfi _ m ref .timeout true false h

theorem EngineInv_reachable (m0 m : Manager) (h0 : InitState m0) (hr : Reachable m0 m) :
    EngineInv m := by
  induction hr with
  | refl => exact EngineInv_init m0 h0
  | tail hsteps hstep ih => exact EngineInv_step _ _ ih hstep

/-- C7 (amended): in every manager state reachable from an empty initial
state by engine operations, a job's `in_run_queue` bit is set if and only
if the job's ref is in the manager's `run_queue` list.  The claim's second
equivalence — queued iff installed and waiting — does not hold (see the
counterexample): a dispatched job that is not yet runnable stays installed
and waiting but is off the queue. -/
theorem C7_run_queue_bit
    (m0 m : Manager) (ref : JobRef) (j : Job)
    (h0 : InitState m0) (hr : Reachable m0 m)
    (hj : m.slotGet ref = some j) :
    j.in_run_queue = true ↔ ref ∈ m.run_queue :=
  (EngineInv_reachable m0 m h0 hr).1.2.2 ref j hj

theorem C7_run_queue_bit_witness :
    mgrOrdering1.slotGet (1, false) =
      some { mkJob 1 1 .start with installed := true, in_run_queue := true } ∧
    (({ mkJob 1 1 .start with installed := true, in_run_queue := true } : Job).in_run_queue =
        true ↔ (1, false) ∈ mgrOrdering1.run_queue) := by
  constructor
  · decide
  · exact C7_run_queue_bit mgrOrderingInit mgrOrdering1 (1, false)
      { mkJob 1 1 .start with installed := true, in_run_queue := true }
      ⟨by decide, rfl⟩
      (Relation.ReflTransGen.single
        (Step.install mgrOrderingInit jobOrderB (by decide) (by decide) (by decide) (by decide)))
      (by decide)

/-- C7 counterexample: the "queued iff installed and waiting" part of the
claim is false.  From the empty two-unit ordering scenario, install a
`start` job on unit 1, then a `start` job on the ordered-after unit 0,
then dispatch unit 0's job: it is not runnable (unit 1's job is first),
so `job_run_and_invalidate` returns `-EAGAIN` after having removed it from
the run queue — leaving an installed, waiting job whose bit is clear and
which is not in `run_queue`. -/
theorem C7_counterexample :
    InitState mgrOrderingInit ∧
    Reachable mgrOrderingInit mgrOrdering3 ∧
    mgrOrdering3.slotGet (0, false) = some { mkJob 2 0 .start with installed := true } ∧
    ({ mkJob 2 0 .start with installed := true } : Job).installed = true ∧
    ({ mkJob 2 0 .start with installed := true } : Job).state = .waiting ∧
    ({ mkJob 2 0 .start with installed := true } : Job).in_run_queue = false ∧
    (0, false) ∉ mgrOrdering3.run_queue := by
  refine ⟨⟨by decide, rfl⟩, ?_, by decide, by decide, by decide, by decide, by decide⟩
  have s1 : Step mgrOrderingInit mgrOrdering1 :=
    Step.install mgrOrderingInit jobOrderB (by decide) (by decide) (by decide) (by decide)
  have s2 : Step mgrOrdering1 mgrOrdering2 :=
    Step.install mgrOrdering1 jobOrderA (by decide) (by decide) (by decide) (by decide)
  have s3 : Step mgrOrdering2 mgrOrdering3 :=
    Step.run mgrOrdering2 (0, false)
      ⟨{ mkJob 2 0 .start with installed := true, in_run_queue := true }, by decide⟩
  exact Relation.ReflTransGen.head s1 (Relation.ReflTransGen.head s2
    (Relation.ReflTransGen.single s3))

/-- C10: in every reachable manager state, every installed job's type is
in the transaction range (`start`, `verify-active`, `stop`, `reload`,
`restart`, `nop`) and in particular is never `reload-or-start` or
`try-restart`: regular slots only ever hold merging-range types (merging
preserves this because `job_type_merge_and_collapse` collapses before
storing), and nop slots only ever hold `nop`. -/
theorem C10_installed_types
    (m0 m : Manager) (ref : JobRef) (j : Job)
    (h0 : InitState m0) (hr : Reachable m0 m)
    (hj : m.slotGet ref = some j) :
    j.type.inTransaction = true ∧
    j.type ≠ JobType.reload_or_start ∧ j.type ≠ JobType.try_restart := by
  obtain ⟨_, hs, _⟩ := EngineInv_reachable m0 m h0 hr
  obtain ⟨hreg, hnop⟩ := SlotOK_slot m hs ref j hj
  cases hb : ref.2 with
  | false =>
    have key : ∀ t : JobType, t.isMerging = true →
        t.inTransaction = true ∧ t ≠ JobType.reload_or_start ∧ t ≠ JobType.try_restart := by
      decide
    exact key _ (hreg hb)
  | true =>
    rw [hnop hb]
    exact ⟨rfl, by decide, by decide⟩

theorem C10_installed_types_witness :
    ({ mkJob 1 1 .start with installed := true, in_run_queue := true } : Job).type.inTransaction =
      true ∧
    ({ mkJob 1 1 .start with installed := true, in_run_queue := true } : Job).type ≠
      JobType.reload_or_start ∧
    ({ mkJob 1 1 .start with installed := true, in_run_queue := true } : Job).type ≠
      JobType.try_restart :=
  C10_installed_types mgrOrderingInit mgrOrdering1 (1, false)
    { mkJob 1 1 .start with installed := true, in_run_queue := true }
    ⟨by decide, rfl⟩
    (Relation.ReflTransGen.single
      (Step.install mgrOrderingInit jobOrderB (by decide) (by decide) (by decide) (by decide)))
    (by decide)
